import Mathlib

/-!
Verification of the terrain / hydrology / flock simulation core of
`ld51-the-flock-and-the-flood` (src/terrain.ts, src/index.ts).

Modelling conventions:
* JS `number` heights, water depths, food and grass amounts are modelled by `ℚ`.
  All quantities the verified claims speak about are produced by ring
  operations and comparisons, which ℚ models exactly.
* The mesh is parametrised by `resolution` (`r`), exactly as in
  `TerrainGeometry`.  Vertex indices are natural numbers `< (r+1)^2`, face
  indices are the numbers `2*n` / `2*n+1` for quad-owner vertices `n`.
* `heightStep = sqrt(sideLen^2 + (sideLen/2)^2)` is irrational, so the planar
  y-coordinate scale is kept as an explicit parameter `heightStep : ℚ` of the
  embedding; every verified statement is independent of its value (the claims
  touch only row-0 vertices, where `y = 0 * heightStep`, and comparisons of
  squared planar distances, which are proved for every value of the
  parameter).
* Rendering-only state (sprite positions, colors, sounds, the THREE.js scene)
  is omitted; the simulation fields of `App` are kept.
* `Math.random()`-driven choices (shuffles, the 0.5% move chance) are supplied
  by explicit oracle data, so every run of the program is one instantiation of
  the oracles.
-/

namespace Flock

/-! ### Mesh geometry (src/terrain.ts, `TerrainGeometry`) -/

/-- Number of unique vertices: `(resolution + 1)^2` (`numUniqueVertices`). -/
def numUniqueVertices (r : Nat) : Nat := (r + 1) ^ 2

/-- Row of a vertex index: `Math.floor(n / (resolution + 1))`. -/
def rowOf (r n : Nat) : Nat := n / (r + 1)

/-- Column of a vertex index: `n % (resolution + 1)`. -/
def colOf (r n : Nat) : Nat := n % (r + 1)

/-- Whether vertex `n` owns a quad (constructor loop guard `row !== r && col !== r`). -/
def isQuadOwner (r n : Nat) : Bool := (rowOf r n != r) && (colOf r n != r)

/-- The three vertices of a face, from the constructor's `initFace` calls:
for owner `n` on an even row the two faces are `(n, n+r+2, n+r+1)` and
`(n, n+1, n+r+2)`; on an odd row they are `(n, n+1, n+r+1)` and
`(n+1, n+r+2, n+r+1)`.  Face `2*n+b` belongs to owner `n = f / 2`. -/
def faceToVertices (r f : Nat) : List Nat :=
  let n := f / 2
  if rowOf r n % 2 = 0 then
    if f % 2 = 0 then [n, n + r + 2, n + r + 1] else [n, n + 1, n + r + 2]
  else
    if f % 2 = 0 then [n, n + 1, n + r + 1] else [n + 1, n + r + 2, n + r + 1]

/-- The list `this.faces` built by the constructor: faces `2*n` and `2*n+1`
for every quad-owner vertex `n`, in index order. -/
def faces (r : Nat) : List Nat :=
  ((List.range (numUniqueVertices r)).filter (isQuadOwner r)).flatMap
    (fun n => [2 * n, 2 * n + 1])

/-- The `vertexToFaces` inverse index: all faces whose vertex triple contains
`v`.  The constructor pushes faces in creation order, which is exactly the
order of `faces r`, and each face is pushed at most once per vertex. -/
def vertexToFaces (r v : Nat) : List Nat :=
  (faces r).filter (fun f => (faceToVertices r f).contains v)

/-- `adjacentFaces` (src/terrain.ts:368-382): counts, over the face's three
vertices' face-lists, how often each other face occurs (the JS `Map` value
saturates at 2) and keeps the faces occurring at least twice.  The JS `Map`
preserves insertion order; all verified claims are order-independent, so the
deduplicated candidate list stands in for the map's key order. -/
def adjacentFaces (r f : Nat) : List Nat :=
  let cands := ((faceToVertices r f).flatMap (fun v => vertexToFaces r v)).filter (fun g => g != f)
  cands.dedup.filter (fun g => 2 ≤ cands.count g)

/-- Number of vertices the two faces' triples share. -/
def sharedVertexCount (r f g : Nat) : Nat :=
  ((faceToVertices r f).filter (fun v => decide (v ∈ faceToVertices r g))).length

/-- Boundary test used by `flood`: `row == 0 || col == 0 || row == resolution
|| col == resolution`. -/
def isEdge (r i : Nat) : Bool :=
  (rowOf r i == 0) || (colOf r i == 0) || (rowOf r i == r) || (colOf r i == r)

/-- Planar `x/y` of a vertex (`xyAtPointIndex`, src/terrain.ts:210-223):
`sideLen = width / resolution`, `x = col * sideLen + (row even ? sideLen/2 :
0)`, `y = row * heightStep`.  The source computes `heightStep =
sqrt(sideLen^2 + (sideLen/2)^2)`, an irrational number; it is kept as the
parameter `heightStep`, and every claim proved below holds for all its
values. -/
def xyAtPointIndex (width : ℚ) (r : Nat) (heightStep : ℚ) (i : Nat) : ℚ × ℚ :=
  let sideLen : ℚ := width / (r : ℚ)
  let row := rowOf r i
  let col := colOf r i
  ((col : ℚ) * sideLen + (if row % 2 = 0 then sideLen / 2 else 0),
   (row : ℚ) * heightStep)

/-- Planar center of a face (`xyFaceCenter`): average of its three vertices'
planar positions.  The triple always has exactly three entries; the default
branch is unreachable. -/
def xyFaceCenter (width : ℚ) (r : Nat) (heightStep : ℚ) (f : Nat) : ℚ × ℚ :=
  match (faceToVertices r f).map (xyAtPointIndex width r heightStep) with
  | [a, b, c] => ((a.1 + b.1 + c.1) / 3, (a.2 + b.2 + c.2) / 3)
  | _ => (0, 0)

/-! ### Hydrology (src/terrain.ts, `flood` and `faceVerticesAllWater`) -/

/-- One neighbour visit of the interior-vertex loop of `flood`
(src/terrain.ts:263-277): if `j ≠ i`, `oldDepth[j] > 0` and the neighbour's
water surface exceeds the currently proposed surface at `i`, raise the
proposal to the neighbour's surface level. -/
def spreadStep (hm old : Nat → ℚ) (i : Nat) (s : ℚ) (j : Nat) : ℚ :=
  if i ≠ j ∧ 0 < old j ∧ hm i + s < hm j + old j then
    max s (hm j + old j - hm i)
  else s

/-- The depth proposed for vertex `i` by one `flood(edgeWaterLevel)` pass:
boundary vertices are forced to `edgeWaterLevel - height`; interior vertices
fold the spread rule over every vertex of every face touching `i`. -/
def proposedDepth (r : Nat) (hm old : Nat → ℚ) (L : ℚ) (i : Nat) : ℚ :=
  if isEdge r i then L - hm i
  else ((vertexToFaces r i).flatMap (fun f => faceToVertices r f)).foldl
    (spreadStep hm old i) (old i)

/-- The scratch array produced by a flood pass, as a total function (indices
beyond the array keep the old value). -/
def floodDepths (r : Nat) (hm old : Nat → ℚ) (L : ℚ) : Nat → ℚ :=
  fun i => if i < numUniqueVertices r then proposedDepth r hm old L i else old i

/-- The change scan of `flood` (src/terrain.ts:281-288): some vertex moved by
more than `0.01`. -/
def floodChanged (r : Nat) (hm old : Nat → ℚ) (L : ℚ) : Bool :=
  (List.range (numUniqueVertices r)).any
    (fun i => decide ((1 : ℚ)/100 < |proposedDepth r hm old L i - old i|))

/-- `flood` returns the new depth array and the `changed` flag: the scratch
array is committed exactly when the scan finds a change. -/
def flood (r : Nat) (hm : Nat → ℚ) (L : ℚ) (old : Nat → ℚ) : (Nat → ℚ) × Bool :=
  if floodChanged r hm old L then (floodDepths r hm old L, true) else (old, false)

/-- Iterated flooding: one `flood` call per entry of `Ls`, threading the depth
array. -/
def floodIter (r : Nat) (hm : Nat → ℚ) (Ls : List ℚ) (d : Nat → ℚ) : Nat → ℚ :=
  Ls.foldl (fun d L => (flood r hm L d).1) d

/-- Global minimum height over the mesh's vertices. -/
def minHeight (r : Nat) (hm : Nat → ℚ) : ℚ :=
  ((List.range (numUniqueVertices r)).map hm).foldl min (hm 0)

/-- `faceVerticesAllWater` (src/terrain.ts:396-403): returns `false` as soon
as some vertex of the face has water depth exactly `0`, else `true`. -/
def faceVerticesAllWater (r : Nat) (depth : Nat → ℚ) (f : Nat) : Bool :=
  (faceToVertices r f).all (fun v => depth v != 0)

end Flock

namespace Flock

/-! ### App and sheep state (src/index.ts) -/

/-- One face's slot-occupancy triple (`faceSheepSlotFree` values): `true`
means free. -/
abbrev Slots := Bool × Bool × Bool

/-- Read slot `i` of a slot triple; indices other than 0-2 read as `false`,
matching the JS `undefined` being falsy in `if (slots[i])`. -/
def slotGet (sl : Slots) : Nat → Bool
  | 0 => sl.1
  | 1 => sl.2.1
  | 2 => sl.2.2
  | _ => false

/-- Write slot `i` of a slot triple; out-of-range writes change nothing
observable to `slotGet`. -/
def slotSet (sl : Slots) (i : Nat) (b : Bool) : Slots :=
  match i with
  | 0 => (b, sl.2.1, sl.2.2)
  | 1 => (sl.1, b, sl.2.2)
  | 2 => (sl.1, sl.2.1, b)
  | _ => sl

/-- Point update of the sparse `faceSheepSlotFree` record. -/
def mapSet (m : Nat → Option Slots) (f : Nat) (v : Slots) : Nat → Option Slots :=
  fun x => if x = f then some v else m x

/-- A sheep (class `Sheep`): `faceIndex` starts as the sentinel `-1`, modelled
as `none`; `movement` keeps only the interpolation progress (the world
positions are rendering-only). -/
structure SheepM where
  faceIndex : Option Nat := none
  slot : Nat := 0
  isDead : Bool := false
  movement : Option ℚ := none
  deriving DecidableEq, Repr

/-- `Sheep.tick` (src/index.ts:57-67): advance an in-flight movement by 1/10,
clearing it once progress reaches 1. -/
def sheepAnimTick (s : SheepM) : SheepM :=
  match s.movement with
  | none => s
  | some p => if 1 ≤ p + 1/10 then { s with movement := none }
              else { s with movement := some (p + 1/10) }

/-- `Sheep.die` (src/index.ts:69-72): sets the dead flag (and detaches the
sprite, which is rendering-only). -/
def sheepDie (s : SheepM) : SheepM := { s with isDead := true }

/-- Fixed per-game parameters: mesh resolution and width, the (irrational, so
parametrised) `heightStep`, the heightmap, initial per-face grass
(`fertility`), and the initial water level. -/
structure Params where
  r : Nat
  width : ℚ
  heightStep : ℚ
  hm : Nat → ℚ
  fert : Nat → ℚ
  initWaterLevel : ℚ

/-- The mutable simulation fields of `App` (rendering, sound, camera and the
highlight state are omitted). -/
structure AppState where
  sheep : List SheepM
  slotFree : Nat → Option Slots
  flockingPoint : Option Nat
  waterLevel : ℚ
  waterCounter : Nat
  frame : Nat
  sheepStoredFood : ℚ
  templeLevel : Nat
  depth : Nat → ℚ
  grass : Nat → ℚ

/-- `App`'s initial state (constructor field initialisers, src/index.ts:104-124). -/
def initialState (P : Params) : AppState :=
  { sheep := [], slotFree := fun _ => none, flockingPoint := none,
    waterLevel := P.initWaterLevel, waterCounter := 0, frame := 0,
    sheepStoredFood := 0, templeLevel := 1,
    depth := fun _ => 0, grass := P.fert }

/-- `canSetSheepOnFace` (src/index.ts:253-264): false on fully watered faces;
otherwise true when the face has no slot record yet or some slot is free. -/
def canSetSheepOnFace (r : Nat) (depth : Nat → ℚ) (m : Nat → Option Slots) (f : Nat) : Bool :=
  if faceVerticesAllWater r depth f then false
  else match m f with
    | none => true
    | some sl => sl.1 || sl.2.1 || sl.2.2

/-- The six permutations of `[0,1,2]`; the oracle index `k` selects which one
`shuffle(slots)` produced. -/
def perm3 (k : Nat) : List Nat :=
  [[0, 1, 2], [0, 2, 1], [1, 0, 2], [1, 2, 0], [2, 0, 1], [2, 1, 0]].getD (k % 6) [0, 1, 2]

/-- An oracle realisation of an in-place `shuffle`: the index list selects
elements of `l`.  A true shuffle is `pick σ l` for a permutation `σ` of the
positions; other index lists give sublists, which only ever removes candidate
moves and is harmless for every property proved below. -/
def pick (idxs : List Nat) (l : List Nat) : List Nat :=
  idxs.filterMap (fun i => l[i]?)

/-- The old-slot release of `setSheepOnFace` (src/index.ts:297-299): `if
(this.faceSheepSlotFree[sheep.faceIndex])
this.faceSheepSlotFree[sheep.faceIndex][sheep.slot] = true` — a no-op when
the sheep has no face yet (`-1`) or its face has no record. -/
def freeOldSlot (sh : SheepM) (m : Nat → Option Slots) : Nat → Option Slots :=
  match sh.faceIndex with
  | some f =>
    match m f with
    | some sl => mapSet m f (slotSet sl sh.slot true)
    | none => m
  | none => m

/-- `setSheepOnFace` (src/index.ts:266-309), state part.  `slotOrder` is the
shuffled `[0,1,2]`.  Steps: create the face's slot record if absent; take the
first free slot in shuffled order; if none (the `console.error` path — the
record was still created) return `none` and the ensured map; otherwise free
the sheep's old slot if its old face has a record, occupy the new slot, and
start the movement (`startMovement` sets `faceIndex`, `slot` and a fresh
progress-0 movement; the target world position is rendering-only). -/
def setSheepOnFace (slotOrder : List Nat) (sh : SheepM) (g : Nat)
    (m : Nat → Option Slots) : Option SheepM × (Nat → Option Slots) :=
  let sl0 := (m g).getD (true, true, true)
  let m1 := mapSet m g sl0
  match slotOrder.find? (fun i => slotGet sl0 i) with
  | none => (none, m1)
  | some t =>
    let m2 := freeOldSlot sh m1
    let m3 := mapSet m2 g (slotSet ((m2 g).getD sl0) t false)
    (some { sh with faceIndex := some g, slot := t, movement := some 0 }, m3)

end Flock

namespace Flock

/-- Helper for the BFS termination measure: popping an already-seen head
leaves the unvisited set unchanged. -/
lemma bfs_sdiff_eq_of_mem (f : Nat) (rest other seen : List Nat) (hf : f ∈ seen) :
    ((rest ++ other).toFinset \ seen.toFinset) =
      (((f :: rest) ++ other).toFinset \ seen.toFinset) := by
  ext x
  simp only [Finset.mem_sdiff, List.mem_toFinset, List.mem_append, List.mem_cons]
  constructor
  · rintro ⟨h1, h2⟩
    exact ⟨by tauto, h2⟩
  · rintro ⟨h1, h2⟩
    refine ⟨?_, h2⟩
    rcases h1 with (rfl | h) | h
    · exact absurd hf h2
    · exact Or.inl h
    · exact Or.inr h

/-- Every face pushed during the spawn search lies in `faces r`
(`adjacentFaces` only ever returns members of the global face list). -/
lemma adjacentFaces_subset_faces (r f : Nat) : ∀ g ∈ adjacentFaces r f, g ∈ faces r := by
  intro g hg
  unfold adjacentFaces at hg
  simp only [List.mem_filter, List.mem_dedup, List.mem_flatMap] at hg
  obtain ⟨⟨v, _hv, hgv⟩, _⟩ := hg.1
  exact (List.mem_filter.mp hgv).1

/-- Helper for the BFS termination measure: processing an unseen head
strictly shrinks the unvisited set, provided everything pushed lies in
`other`. -/
lemma bfs_sdiff_card_lt (f : Nat) (rest pushes other seen : List Nat) (hf : f ∉ seen)
    (hp : ∀ x ∈ pushes, x ∈ other) :
    (((rest ++ pushes) ++ other).toFinset \ (f :: seen).toFinset).card <
      (((f :: rest) ++ other).toFinset \ seen.toFinset).card := by
  apply Finset.card_lt_card
  constructor
  · intro x hx
    simp only [Finset.mem_sdiff, List.mem_toFinset, List.mem_append, List.mem_cons] at hx ⊢
    obtain ⟨h1, h2⟩ := hx
    push_neg at h2
    refine ⟨?_, h2.2⟩
    rcases h1 with (h | h) | h
    · exact Or.inl (Or.inr h)
    · exact Or.inr (hp x h)
    · exact Or.inr h
  · intro hsub
    have hmem : f ∈ (((f :: rest) ++ other).toFinset \ seen.toFinset) := by
      simp [hf]
    have hmem2 := hsub hmem
    simp [Finset.mem_sdiff] at hmem2

/-- The candidate list built inside `adjacentFaces`: all faces of the three
vertices' face lists, other than `f` itself, with multiplicity. -/
def adjCands (r f : Nat) : List Nat :=
  ((faceToVertices r f).flatMap (fun v => vertexToFaces r v)).filter (fun g => g != f)

/-- Membership in `adjacentFaces` unpacked: the face is a candidate occurring
at least twice (the JS `Map` value saturates at 2, so `v == 2` means "at
least two occurrences"). -/
lemma mem_adjacentFaces_iff (r f g : Nat) :
    g ∈ adjacentFaces r f ↔ g ∈ adjCands r f ∧ 2 ≤ (adjCands r f).count g := by
  unfold adjacentFaces adjCands
  simp only [List.mem_filter, List.mem_dedup, decide_eq_true_eq]

/-- The body of `trySpawnSheep`'s loop (src/index.ts:311-336) as a
breadth-first search returning the face selected for the spawn (if any) and
the trace of faces whose availability was tested, in visit order.  The queue
starts as `[flockingPoint]`; popped faces already in `seen` are skipped, a
face passing `canSetSheepOnFace` ends the search, otherwise every adjacent
face not yet seen is pushed. -/
def bfsSpawn (r : Nat) (canSet : Nat → Bool) (queue seen : List Nat) :
    Option Nat × List Nat :=
  match queue with
  | [] => (none, [])
  | f :: rest =>
    if hf : f ∈ seen then bfsSpawn r canSet rest seen
    else if canSet f then (some f, [f])
    else
      let res := bfsSpawn r canSet
        (rest ++ (adjacentFaces r f).filter (fun a => !seen.contains a)) (f :: seen)
      (res.1, f :: res.2)
termination_by (((queue ++ faces r).toFinset \ seen.toFinset).card, queue.length)
decreasing_by
  · rw [← bfs_sdiff_eq_of_mem f rest (faces r) seen hf]
    exact Prod.Lex.right _ (Nat.lt_succ_self _)
  · apply Prod.Lex.left
    exact bfs_sdiff_card_lt f rest _ (faces r) seen hf
      (fun x hx => adjacentFaces_subset_faces r f x (List.mem_of_mem_filter hx))

end Flock

namespace Flock

/-! ### Oracles for `Math.random()`-driven choices -/

/-- Per-sheep oracle for one slow tick: the 0.5% move-chance draw, the indices
realising `shuffle(adj)`, and the permutation of `[0,1,2]` realising the slot
shuffle of `setSheepOnFace`. -/
structure SheepOracle where
  rand : Bool := false
  shufIdx : List Nat := []
  slotPerm : Nat := 0

/-- Oracle for one slow tick. -/
structure SlowOracle where
  perSheep : Nat → SheepOracle := fun _ => {}
  spawnSlotPerm : Nat := 0

/-- Oracle for one fast tick (only the possibly-nested slow tick draws). -/
structure TickOracle where
  slow : SlowOracle := {}

/-- Oracle for one click (`raycast`): for each of the 20 initial-flock
iterations, the indices realising `shuffle(tiles)` and the slot-shuffle
permutation. -/
structure ClickOracle where
  flockShuf : Nat → List Nat := fun _ => []
  flockSlotPerm : Nat → Nat := fun _ => 0

/-- A freshly constructed `Sheep`: `faceIndex = -1` (here `none`), slot 0,
alive, no movement. -/
def newSheep : SheepM := {}

/-- `trySpawnSheep` (src/index.ts:311-336): breadth-first search from the
flocking point; on success the fresh sheep is placed on the found face.
`flockingPoint` is dereferenced with `!` in the source; the `none` branch is
unreachable because a spawn is only attempted once sheep exist, which
requires a flocking point.  The inner `(none, _)` branch of `setSheepOnFace`
cannot occur either, since the found face passed `canSetSheepOnFace` and the
slot order is a true permutation of `[0,1,2]`. -/
def trySpawnSheep (P : Params) (st : AppState) (slotPerm : Nat) :
    Option (SheepM × (Nat → Option Slots)) :=
  match st.flockingPoint with
  | none => none
  | some fp =>
    match (bfsSpawn P.r (canSetSheepOnFace P.r st.depth st.slotFree) [fp] []).1 with
    | none => none
    | some f =>
      match setSheepOnFace (perm3 slotPerm) newSheep f st.slotFree with
      | (some sh, m') => some (sh, m')
      | (none, _) => none

/-- Squared planar distance, as in the goal-seeking comparison of `slowTick`. -/
def distSq (p q : ℚ × ℚ) : ℚ := (p.1 - q.1) ^ 2 + (p.2 - q.2) ^ 2

/-- The goal-seeking selection of `slowTick` (src/index.ts:360-377): among
the adjacent faces with a free slot and not fully submerged, pick the one
whose planar center is strictly closest (squared distance) to the flocking
point's center, starting from the sheep's own face. -/
def goalSeekBest (P : Params) (depth : Nat → ℚ) (m : Nat → Option Slots)
    (fp f : Nat) (adj : List Nat) : Nat :=
  let target := xyFaceCenter P.width P.r P.heightStep fp
  (adj.foldl
    (fun (b : Nat × ℚ) a =>
      if canSetSheepOnFace P.r depth m a then
        let da := distSq (xyFaceCenter P.width P.r P.heightStep a) target
        if da < b.2 then (a, da) else b
      else b)
    (f, distSq (xyFaceCenter P.width P.r P.heightStep f) target)).1

/-- One iteration of `slowTick`'s per-sheep loop (src/index.ts:344-387): a
sheep mid-movement is skipped entirely (including foraging); otherwise it
either random-walks (0.5% draw) to the first available shuffled adjacent
face, or goal-seeks toward the flocking point, and then forages
`min(grass, 0.005)` from its (possibly new) face.  The `none` face branch is
unreachable for live sheep (the source would fault on
`faceToVertices[-1]`); the `none` flocking-point branch is the source's
`assert` (unreachable while sheep exist). -/
def processSheep (P : Params) (flock : Option Nat) (depth : Nat → ℚ) (os : SheepOracle)
    (s : SheepM) (m : Nat → Option Slots) (grass : Nat → ℚ) (food : ℚ) :
    SheepM × (Nat → Option Slots) × (Nat → ℚ) × ℚ :=
  if s.movement.isSome then (s, m, grass, food)
  else
    match s.faceIndex with
    | none => (s, m, grass, food)
    | some f =>
      let adj := adjacentFaces P.r f
      let sm :=
        if os.rand then
          match (pick os.shufIdx adj).find? (canSetSheepOnFace P.r depth m) with
          | some g =>
            match setSheepOnFace (perm3 os.slotPerm) s g m with
            | (some s', m') => (s', m')
            | (none, m') => (s, m')
          | none => (s, m)
        else
          match flock with
          | none => (s, m)
          | some fp =>
            let best := goalSeekBest P depth m fp f adj
            if best ≠ f then
              match setSheepOnFace (perm3 os.slotPerm) s best m with
              | (some s', m') => (s', m')
              | (none, m') => (s, m')
            else (s, m)
      let g := sm.1.faceIndex.getD 0
      let eaten := min (grass g) (1/200)
      (sm.1, sm.2, fun x => if x = g then grass x - eaten else grass x, food + eaten)

/-- The per-sheep loop of `slowTick`, threading the slot map, grass field and
stored food through the sheep list in order. -/
def sheepLoop (P : Params) (flock : Option Nat) (depth : Nat → ℚ) (oper : Nat → SheepOracle) :
    Nat → List SheepM → (Nat → Option Slots) → (Nat → ℚ) → ℚ →
    List SheepM × (Nat → Option Slots) × (Nat → ℚ) × ℚ
  | _, [], m, gr, fd => ([], m, gr, fd)
  | i, s :: rest, m, gr, fd =>
    let p := processSheep P flock depth (oper i) s m gr fd
    let q := sheepLoop P flock depth oper (i + 1) rest p.2.1 p.2.2.1 p.2.2.2
    (p.1 :: q.1, q.2.1, q.2.2.1, q.2.2.2)

/-- The reproduction step of `slowTick` (src/index.ts:389-395): when stored
food exceeds 5, attempt a spawn; on success push the new sheep and deduct 5
food (the sound cue is rendering-only). -/
def spawnPhase (P : Params) (st : AppState) (slotPerm : Nat) : AppState :=
  if 5 < st.sheepStoredFood then
    match trySpawnSheep P st slotPerm with
    | some shm =>
      { st with sheep := st.sheep ++ [shm.1], slotFree := shm.2,
                sheepStoredFood := st.sheepStoredFood - 5 }
    | none => st
  else st

/-- The temple-milestone chain of `slowTick` (src/index.ts:397-419); the
sprite attachments are rendering-only. -/
def templePhase (st : AppState) : AppState :=
  if st.templeLevel = 1 ∧ 30 ≤ st.sheep.length then { st with templeLevel := 2 }
  else if st.templeLevel = 2 ∧ 40 ≤ st.sheep.length then { st with templeLevel := 3 }
  else if st.templeLevel = 3 ∧ 50 ≤ st.sheep.length then { st with templeLevel := 4 }
  else if st.templeLevel = 4 ∧ 60 ≤ st.sheep.length then { st with templeLevel := 5 }
  else if st.templeLevel = 5 ∧ 70 ≤ st.sheep.length then { st with templeLevel := 6 }
  else if st.templeLevel = 6 ∧ 80 ≤ st.sheep.length then { st with templeLevel := 7 }
  else if st.templeLevel = 7 ∧ 90 ≤ st.sheep.length then { st with templeLevel := 8 }
  else st

/-- `slowTick` (src/index.ts:338-426): flood relaxation (committing the new
depth array when it changed), the per-sheep loop, reproduction, the temple
chain.  The `setupVertices` calls and the flag-sprite move are
rendering-only. -/
def slowTick (P : Params) (st : AppState) (o : SlowOracle) : AppState :=
  let st1 := { st with depth := (flood P.r P.hm st.waterLevel st.depth).1 }
  let lr := sheepLoop P st1.flockingPoint st1.depth o.perSheep 0 st1.sheep
              st1.slotFree st1.grass st1.sheepStoredFood
  let st2 := { st1 with sheep := lr.1, slotFree := lr.2.1, grass := lr.2.2.1,
                        sheepStoredFood := lr.2.2.2 }
  templePhase (spawnPhase P st2 o.spawnSlotPerm)

/-- Whether a live sheep's face is fully submerged (`tick`'s death test);
`none` cannot occur for a sheep in the live list (the source would fault on
`faceToVertices[-1]`). -/
def submergedSheep (P : Params) (depth : Nat → ℚ) (s : SheepM) : Bool :=
  match s.faceIndex with
  | some f => faceVerticesAllWater P.r depth f
  | none => false

/-- The death sweep of `tick` (src/index.ts:433-441): mark every sheep on a
fully submerged face dead (`die`), advance the others' movement animation,
then filter the dead out of the live list — all within the same fast tick. -/
def deathPhase (P : Params) (st : AppState) : AppState :=
  { st with sheep :=
      (st.sheep.map (fun s => if submergedSheep P st.depth s then sheepDie s
                              else sheepAnimTick s)).filter (fun s => !s.isDead) }

/-- The tiered water-level increment of `tick` (src/index.ts:447-457). -/
def tierStep (w : ℚ) : ℚ :=
  if w < -35 then 3 else if w < 20 then 5 else if w < 40 then 10
  else if w < 90 then 20 else 35

/-- The `highestVertex` computed by the `TerrainGeometry` constructor
(src/terrain.ts:157-165).  The source starts the scan from `-Infinity`; the
first iteration (`i = 0`, and the vertex count is always positive) always
replaces it, so the fold may start from vertex 0. -/
def highestVertex (r : Nat) (hm : Nat → ℚ) : Nat :=
  ((List.range (numUniqueVertices r)).foldl
    (fun p i => if p.2 < hm i then (i, hm i) else p) (0, hm 0)).1

/-- The water-level ratchet of `tick` (src/index.ts:443-463): only while a
flocking point exists; on counter 600 with the level below
`heightmap[highestVertex] + 1`, add the tiered step, clamp to that bound and
reset the counter; otherwise just count. -/
def waterPhase (P : Params) (st : AppState) : AppState :=
  match st.flockingPoint with
  | none => st
  | some _ =>
    let highestWaterLevel := P.hm (highestVertex P.r P.hm) + 1
    if st.waterCounter = 600 ∧ st.waterLevel < highestWaterLevel then
      { st with waterLevel := min highestWaterLevel (st.waterLevel + tierStep st.waterLevel),
                waterCounter := 0 }
    else { st with waterCounter := st.waterCounter + 1 }

/-- `App.tick` (src/index.ts:428-467): death sweep and live-list filter, the
water ratchet, and every 4th frame the slow tick.  Rain and sound cooldowns
are rendering-only. -/
def tick (P : Params) (st : AppState) (o : TickOracle) : AppState :=
  let st2 := waterPhase P (deathPhase P st)
  if st2.frame % 4 = 0 then slowTick P st2 o.slow else st2

/-- One rendered frame (`App.render`, src/index.ts:228-241): run `tick`, then
increment the frame counter. -/
def renderStep (P : Params) (st : AppState) (o : TickOracle) : AppState :=
  let st' := tick P st o
  { st' with frame := st'.frame + 1 }

/-- The tile set for the initial flock (src/index.ts:483-491): the flocking
point, its adjacent faces and their adjacent faces.  The JS `Set` iterates in
insertion order; membership is what matters here since every use goes through
an oracle-shuffled pick. -/
def flockTiles (r fp : Nat) : List Nat :=
  (fp :: (adjacentFaces r fp).flatMap (fun t => t :: adjacentFaces r t)).dedup

/-- The initial-flock loop of `raycast` (src/index.ts:493-505): 20 times,
shuffle the tiles and place a fresh sheep on the first tile with capacity. -/
def initialFlock (P : Params) (fp : Nat) (o : ClickOracle) (st : AppState) : AppState :=
  (List.range 20).foldl
    (fun st i =>
      match (pick (o.flockShuf i) (flockTiles P.r fp)).find?
          (canSetSheepOnFace P.r st.depth st.slotFree) with
      | none => st
      | some tile =>
        match setSheepOnFace (perm3 (o.flockSlotPerm i)) newSheep tile st.slotFree with
        | (some sh, m') => { st with sheep := st.sheep ++ [sh], slotFree := m' }
        | (none, m') => { st with slotFree := m' })
    st

/-- `App.raycast` for a click resolved to face `f` (src/index.ts:469-512):
ignored on fully watered faces; the first click sets the flocking point and
spawns the initial flock, later clicks just move the flocking point.  The
flag sprite is rendering-only. -/
def raycastStep (P : Params) (st : AppState) (f : Nat) (o : ClickOracle) : AppState :=
  if faceVerticesAllWater P.r st.depth f then st
  else
    match st.flockingPoint with
    | none => initialFlock P f o { st with flockingPoint := some f }
    | some _ => { st with flockingPoint := some f }

/-- One externally triggered transition of the app: a rendered frame, or a
click on some face.  (`raycastHover` only changes the highlight and the
preview flag, both rendering-only.) -/
inductive Step (P : Params) : AppState → AppState → Prop
  | render (st : AppState) (o : TickOracle) : Step P st (renderStep P st o)
  | click (st : AppState) (f : Nat) (o : ClickOracle) : Step P st (raycastStep P st f o)

/-- States reachable from the freshly constructed `App`. -/
inductive Reachable (P : Params) : AppState → Prop
  | init : Reachable P (initialState P)
  | step {st st' : AppState} : Reachable P st → Step P st st' → Reachable P st'

/-- Transitive closure of `Step`: the rest of a simulation run. -/
def Steps (P : Params) : AppState → AppState → Prop := Relation.ReflTransGen (Step P)

end Flock

namespace Flock

/-! ### Helper lemmas for the hydrology claims -/

/-- The spread fold never lowers the proposal. -/
lemma le_foldl_spreadStep (hm old : Nat → ℚ) (i : Nat) :
    ∀ (l : List Nat) (s : ℚ), s ≤ l.foldl (spreadStep hm old i) s := by
  intro l
  induction l with
  | nil => intro s; simp
  | cons j t ih =>
    intro s
    refine le_trans ?_ (ih (spreadStep hm old i s j))
    unfold spreadStep
    split
    · exact le_max_left _ _
    · exact le_refl _

/-- When no vertex has positive depth, the spread fold keeps the start. -/
lemma foldl_spreadStep_of_nonpos (hm old : Nat → ℚ) (i : Nat)
    (h : ∀ j, old j ≤ 0) : ∀ (l : List Nat) (s : ℚ), l.foldl (spreadStep hm old i) s = s := by
  intro l
  induction l with
  | nil => intro s; simp
  | cons j t ih =>
    intro s
    have hstep : spreadStep hm old i s j = s := by
      unfold spreadStep
      split
      · next hcond => exact absurd hcond.2.1 (not_lt.mpr (h j))
      · rfl
    rw [List.foldl_cons, hstep, ih]

/-- An interior vertex's proposed depth never drops below its current depth. -/
lemma old_le_proposedDepth (r : Nat) (hm old : Nat → ℚ) (L : ℚ) (i : Nat)
    (hi : isEdge r i = false) : old i ≤ proposedDepth r hm old L i := by
  unfold proposedDepth
  rw [hi]
  simpa using le_foldl_spreadStep hm old i _ (old i)

/-- An interior vertex's depth never drops below its current depth in one
`flood` call. -/
lemma old_le_flood_fst (r : Nat) (hm old : Nat → ℚ) (L : ℚ) (i : Nat)
    (hi : isEdge r i = false) : old i ≤ (flood r hm L old).1 i := by
  unfold flood
  split
  · simp only
    unfold floodDepths
    split
    · exact old_le_proposedDepth r hm old L i hi
    · exact le_refl _
  · exact le_refl _

/-- `floodChanged` unpacked to an existential over the vertex indices. -/
lemma floodChanged_iff (r : Nat) (hm old : Nat → ℚ) (L : ℚ) :
    floodChanged r hm old L = true ↔
      ∃ i < numUniqueVertices r, 1/100 < |proposedDepth r hm old L i - old i| := by
  unfold floodChanged
  simp [List.any_eq_true, List.mem_range]

/-- Vertex 0 is always a boundary vertex (row 0). -/
lemma isEdge_zero (r : Nat) : isEdge r 0 = true := by
  unfold isEdge rowOf
  simp

/-- The fold computing the global minimum is below its start and every member. -/
lemma foldl_min_le (l : List ℚ) (a : ℚ) :
    l.foldl min a ≤ a ∧ ∀ x ∈ l, l.foldl min a ≤ x := by
  induction l generalizing a with
  | nil => simp
  | cons y t ih =>
    constructor
    · exact le_trans (ih (min a y)).1 (min_le_left a y)
    · intro x hx
      rcases List.mem_cons.mp hx with rfl | hx
      · exact le_trans (ih (min a x)).1 (min_le_right a x)
      · exact (ih (min a y)).2 x hx

/-- The global minimum height is below every vertex's height. -/
lemma minHeight_le (r : Nat) (hm : Nat → ℚ) (i : Nat) (hi : i < numUniqueVertices r) :
    minHeight r hm ≤ hm i := by
  unfold minHeight
  exact (foldl_min_le _ _).2 (hm i) (List.mem_map_of_mem hm (List.mem_range.mpr hi))

/-! ### Claim C3 -/

/-- C3 (confirmed): `flood(L)` returns `true` iff some vertex's newly proposed
depth differs from its current depth by more than 0.01; in that case the
whole proposed array is committed, and when it returns `false` the depth
array is left exactly unchanged. -/
theorem flood_commit_spec (r : Nat) (hm : Nat → ℚ) (L : ℚ) (old : Nat → ℚ) :
    ((flood r hm L old).2 = true ↔
      ∃ i < numUniqueVertices r, 1/100 < |proposedDepth r hm old L i - old i|)
    ∧ ((flood r hm L old).2 = true → (flood r hm L old).1 = floodDepths r hm old L)
    ∧ ((flood r hm L old).2 = false → (flood r hm L old).1 = old) := by
  unfold flood
  by_cases h : floodChanged r hm old L
  · rw [if_pos h]
    exact ⟨by simpa using (floodChanged_iff r hm old L).mp h, fun _ => rfl, by simp⟩
  · rw [if_neg h]
    refine ⟨?_, by simp, fun _ => rfl⟩
    simp only [false_iff, not_exists]
    constructor
    · intro hfalse; exact absurd hfalse (by simp)
    · intro hex
      exact absurd ((floodChanged_iff r hm old L).mpr (by simpa using hex)) h

unseal Rat.add Rat.mul Rat.inv Rat.sub in
/-- Witness for C3 at a concrete mesh: on the 1-resolution mesh with flat
heightmap 0, flooding to level `-1` from zero depth reports a change. -/
theorem flood_commit_spec_witness :
    (flood 1 (fun _ => 0) (-1) (fun _ => 0)).2 = true
    ∧ ((flood 1 (fun _ => 0) (-1) (fun _ => 0)).1 =
        floodDepths 1 (fun _ => 0) (fun _ => 0) (-1)) := by
  have h := flood_commit_spec 1 (fun _ => 0) (-1) (fun _ => 0)
  have htrue : (flood 1 (fun _ => 0) (-1) (fun _ => 0)).2 = true := by decide
  exact ⟨htrue, h.2.1 htrue⟩

end Flock

namespace Flock

/-! ### Claim C9 -/

/-- C9 (corrected): the `width = 100`, `resolution = 4` mesh has 25 vertices
and 32 faces, and vertex 0 lies at planar `(sideLen/2, 0) = (25/2, 0)`.
Vertex 4, however, lies at `(4*sideLen + sideLen/2, 0) = (225/2, 0)`, not at
`(4*sideLen, 0)`: row 0 is even, so the jagged half-side offset applies to
every vertex of the row, including vertex 4.  Proved for every value of the
(irrational in the source) `heightStep` parameter. -/
theorem mesh_scenario_resolution4 (h : ℚ) :
    numUniqueVertices 4 = 25 ∧ (faces 4).length = 32
    ∧ xyAtPointIndex 100 4 h 0 = (25/2, 0)
    ∧ xyAtPointIndex 100 4 h 4 = (225/2, 0) := by
  refine ⟨rfl, by decide, ?_, ?_⟩ <;>
    · unfold xyAtPointIndex rowOf colOf
      norm_num [Prod.ext_iff]

/-- C9 counterexample: vertex index 4 of the `width = 100`, `resolution = 4`
mesh does not have x-coordinate `4 * sideLen = 100`; it is `225/2`. -/
theorem mesh_scenario_resolution4_counterexample :
    (xyAtPointIndex 100 4 37 4).1 = 225/2 ∧ (xyAtPointIndex 100 4 37 4).1 ≠ 4 * (100/4 : ℚ) := by
  constructor <;>
    · unfold xyAtPointIndex rowOf colOf
      norm_num

/-! ### Claim C5 -/

/-- C5 (amended): `faceVerticesAllWater` returns true iff every vertex of the
face has nonzero water depth.  The source tests `=== 0`, so negative depths
(which `flood` genuinely produces at boundary vertices) also count as
"water"; "nonzero", not "strictly positive", is the faithful reading. -/
theorem faceVerticesAllWater_iff_nonzero (r : Nat) (depth : Nat → ℚ) (f : Nat) :
    faceVerticesAllWater r depth f = true ↔ ∀ v ∈ faceToVertices r f, depth v ≠ 0 := by
  unfold faceVerticesAllWater
  simp [List.all_eq_true]

/-- Witness for C5 on a concrete face: with depth 1 on every vertex the
query is true; each vertex's depth is nonzero. -/
theorem faceVerticesAllWater_iff_nonzero_witness :
    faceVerticesAllWater 1 (fun _ => 1) 0 = true ∧ ∀ v ∈ faceToVertices 1 0, (1:ℚ) ≠ 0 := by
  refine ⟨(faceVerticesAllWater_iff_nonzero 1 (fun _ => 1) 0).mpr ?_, ?_⟩ <;>
    · intro v _
      norm_num

/-- C5 counterexample: with depth `-1` everywhere, face 0 of the
resolution-1 mesh (a genuine face of that mesh) reports
`faceVerticesAllWater = true` although no vertex has strictly positive
depth, refuting the "iff all strictly positive" reading. -/
theorem faceVerticesAllWater_counterexample :
    0 ∈ faces 1
    ∧ faceVerticesAllWater 1 (fun _ => -1) 0 = true
    ∧ ¬ ∀ v ∈ faceToVertices 1 0, (0:ℚ) < (fun _ => (-1:ℚ)) v := by
  refine ⟨by decide, by decide, ?_⟩
  intro hall
  have h0 := hall 0 (by decide)
  norm_num at h0

/-! ### Claim C4 -/

/-- When no vertex has positive depth, an interior vertex's proposal is
unchanged. -/
lemma proposedDepth_of_nonpos (r : Nat) (hm old : Nat → ℚ) (L : ℚ) (i : Nat)
    (h : ∀ j, old j ≤ 0) (hi : isEdge r i = false) :
    proposedDepth r hm old L i = old i := by
  unfold proposedDepth
  rw [hi]
  simpa using foldl_spreadStep_of_nonpos hm old i h _ (old i)

/-- Interior vertices never go negative across any sequence of flood calls,
starting from any interior-non-negative state. -/
lemma floodIter_interior_nonneg (r : Nat) (hm : Nat → ℚ) :
    ∀ (Ls : List ℚ) (d : Nat → ℚ),
      (∀ i, isEdge r i = false → 0 ≤ d i) →
      ∀ i, isEdge r i = false → 0 ≤ floodIter r hm Ls d i := by
  intro Ls
  induction Ls with
  | nil => intro d hd i hi; exact hd i hi
  | cons L t ih =>
    intro d hd i hi
    unfold floodIter
    rw [List.foldl_cons]
    exact ih _ (fun j hj => le_trans (hd j hj) (old_le_flood_fst r hm d L j hj)) i hi

end Flock

namespace Flock

/-- The first flood pass from the all-zero state with a target level at least
1 below every vertex: it commits (returns `true`), edge vertices get
`L - height` and interior ones stay at 0; a second pass then changes
nothing. -/
lemma flood_drain_aux (r : Nat) (hm : Nat → ℚ) (L : ℚ)
    (hL : ∀ j, j < numUniqueVertices r → L ≤ hm j - 1) :
    (flood r hm L (fun _ => 0)).2 = true
    ∧ (flood r hm L ((flood r hm L (fun _ => 0)).1)).2 = false
    ∧ (flood r hm L ((flood r hm L (fun _ => 0)).1)).1 = (flood r hm L (fun _ => 0)).1
    ∧ ∀ i, i < numUniqueVertices r →
        (isEdge r i = true → (flood r hm L (fun _ => 0)).1 i = L - hm i)
        ∧ (isEdge r i = false → (flood r hm L (fun _ => 0)).1 i = 0) := by
  have hV : 0 < numUniqueVertices r := by
    unfold numUniqueVertices
    positivity
  have hprop1 : ∀ i, proposedDepth r hm (fun _ => 0) L i =
      if isEdge r i then L - hm i else 0 := by
    intro i
    by_cases hi : isEdge r i
    · unfold proposedDepth
      rw [hi]
      simp
    · rw [if_neg (by simpa using hi)]
      exact proposedDepth_of_nonpos r hm _ L i (fun _ => le_refl 0)
        (Bool.not_eq_true _ ▸ by simpa using hi)
  have hch1 : floodChanged r hm (fun _ => 0) L = true := by
    rw [floodChanged_iff]
    refine ⟨0, hV, ?_⟩
    rw [hprop1 0, if_pos (isEdge_zero r)]
    have h0 := hL 0 hV
    rw [abs_of_nonpos (by linarith)]
    linarith
  have hfst1 : (flood r hm L (fun _ => 0)).1 = floodDepths r hm (fun _ => 0) L := by
    unfold flood
    rw [if_pos hch1]
  have hd1 : ∀ i, (flood r hm L (fun _ => 0)).1 i =
      if i < numUniqueVertices r then (if isEdge r i then L - hm i else 0) else 0 := by
    intro i
    rw [hfst1]
    unfold floodDepths
    by_cases hi : i < numUniqueVertices r
    · rw [if_pos hi, if_pos hi, hprop1]
    · rw [if_neg hi, if_neg hi]
  have hd1nonpos : ∀ j, (flood r hm L (fun _ => 0)).1 j ≤ 0 := by
    intro j
    rw [hd1]
    by_cases hj : j < numUniqueVertices r
    · rw [if_pos hj]
      by_cases he : isEdge r j
      · rw [if_pos he]
        have := hL j hj
        linarith
      · rw [if_neg he]
    · rw [if_neg hj]
  have hprop2 : ∀ i, i < numUniqueVertices r →
      proposedDepth r hm ((flood r hm L (fun _ => 0)).1) L i =
        (flood r hm L (fun _ => 0)).1 i := by
    intro i hi
    by_cases he : isEdge r i
    · unfold proposedDepth
      rw [he, hd1 i, if_pos hi, if_pos he]
      simp
    · rw [proposedDepth_of_nonpos r hm _ L i hd1nonpos (by simpa using he)]
  have hch2 : floodChanged r hm ((flood r hm L (fun _ => 0)).1) L = false := by
    rw [← Bool.not_eq_true, floodChanged_iff]
    rintro ⟨i, hi, habs⟩
    rw [hprop2 i hi] at habs
    simp at habs
    linarith
  have hsnd : ∀ d : Nat → ℚ, (flood r hm L d).2 = floodChanged r hm d L := by
    intro d
    unfold flood
    split
    · next h => simp [h]
    · next h => simp [Bool.not_eq_true _ ▸ h]
  have hfstu : ∀ d : Nat → ℚ, floodChanged r hm d L = false → (flood r hm L d).1 = d := by
    intro d hd
    unfold flood
    rw [if_neg (by simp [hd])]
  refine ⟨by rw [hsnd, hch1], by rw [hsnd, hch2], hfstu _ hch2, ?_⟩
  intro i hi
  constructor
  · intro he
    rw [hd1, if_pos hi, if_pos he]
  · intro he
    rw [hd1, if_pos hi, if_neg (by simp [he])]

end Flock

namespace Flock

/-- C4 (corrected): starting from all-zero depth, after any sequence of flood
calls every interior (non-boundary) vertex's depth is non-negative, and with
target level equal to the global minimum height minus 1 the process
converges after one committing call: the second call returns `false` and
leaves the array unchanged, with depth 0 at every interior vertex.  Boundary
vertices, however, are forced to `targetLevel - height`, which in this
scenario is at most `-1` — negative, not 0: the claim's "never negative" and
"all-zero at convergence" parts fail at boundary vertices (there is no
clamping in the code). -/
theorem flood_drain_scenario (r : Nat) (hm : Nat → ℚ) :
    (∀ (Ls : List ℚ) (i : Nat), isEdge r i = false →
        0 ≤ floodIter r hm Ls (fun _ => 0) i)
    ∧ (∀ L, L = minHeight r hm - 1 →
        (flood r hm L (fun _ => 0)).2 = true
        ∧ (flood r hm L ((flood r hm L (fun _ => 0)).1)).2 = false
        ∧ (flood r hm L ((flood r hm L (fun _ => 0)).1)).1 = (flood r hm L (fun _ => 0)).1
        ∧ ∀ i, i < numUniqueVertices r →
            (isEdge r i = true →
              (flood r hm L (fun _ => 0)).1 i = L - hm i ∧ (flood r hm L (fun _ => 0)).1 i ≤ -1)
            ∧ (isEdge r i = false → (flood r hm L (fun _ => 0)).1 i = 0)) := by
  constructor
  · intro Ls i hi
    exact floodIter_interior_nonneg r hm Ls _ (fun _ _ => le_refl 0) i hi
  · intro L hLdef
    have hL : ∀ j, j < numUniqueVertices r → L ≤ hm j - 1 := by
      intro j hj
      have := minHeight_le r hm j hj
      linarith [hLdef ▸ le_refl L]
    obtain ⟨h1, h2, h3, h4⟩ := flood_drain_aux r hm L hL
    refine ⟨h1, h2, h3, fun i hi => ⟨fun he => ⟨(h4 i hi).1 he, ?_⟩, (h4 i hi).2⟩⟩
    rw [(h4 i hi).1 he]
    have := hL i hi
    linarith

unseal Rat.add Rat.mul Rat.inv Rat.sub in
/-- Witness for C4 on the flat resolution-2 mesh (`minHeight = 0`, so the
scenario level is `-1`; vertex 4 is the interior vertex): interior depth
stays 0 and the first call commits. -/
theorem flood_drain_scenario_witness :
    0 ≤ floodIter 2 (fun _ => 0) [-1] (fun _ => 0) 4
    ∧ (flood 2 (fun _ => 0) (-1) (fun _ => 0)).2 = true
    ∧ (flood 2 (fun _ => 0) (-1) ((flood 2 (fun _ => 0) (-1) (fun _ => 0)).1)).2 = false := by
  have h := flood_drain_scenario 2 (fun _ => 0)
  have hsc := h.2 (-1) (by decide)
  exact ⟨h.1 [-1] 4 (by decide), hsc.1, hsc.2.1⟩

unseal Rat.add Rat.mul Rat.inv Rat.sub in
/-- C4 counterexample: on the flat resolution-1 mesh with the scenario level
`minHeight - 1 = -1`, one flood call from all-zero already puts depth `-1`
on vertex 0, which is negative; the second call reports convergence
(`false`), and the converged depth at vertex 0 is `-1`, not 0. -/
theorem flood_nonneg_counterexample :
    minHeight 1 (fun _ => 0) - 1 = -1
    ∧ floodIter 1 (fun _ => 0) [-1] (fun _ => 0) 0 = -1
    ∧ (flood 1 (fun _ => 0) (-1) (floodIter 1 (fun _ => 0) [-1] (fun _ => 0))).2 = false
    ∧ ¬ (0 ≤ floodIter 1 (fun _ => 0) [-1] (fun _ => 0) 0)
    ∧ floodIter 1 (fun _ => 0) [-1] (fun _ => 0) 0 ≠ 0 := by
  refine ⟨by decide, by decide, by decide, by decide, by decide⟩

end Flock

namespace Flock

/-! ### Claim C2: the adjacency characterisation -/

/-- Rows of vertex indices are at most `r`. -/
lemma row_lt (r n : Nat) (hn : n < numUniqueVertices r) : rowOf r n < r + 1 := by
  unfold rowOf
  apply Nat.div_lt_of_lt_mul
  have h : numUniqueVertices r = (r + 1) * (r + 1) := by
    unfold numUniqueVertices
    ring
  omega

/-- Membership in the face list unpacked to the owning vertex. -/
lemma mem_faces_iff (r f : Nat) :
    f ∈ faces r ↔ ∃ n, n < numUniqueVertices r ∧ rowOf r n ≠ r ∧ colOf r n ≠ r ∧
      (f = 2*n ∨ f = 2*n+1) := by
  unfold faces isQuadOwner
  simp only [List.mem_flatMap, List.mem_filter, List.mem_range, Bool.and_eq_true, bne_iff_ne,
    ne_eq, List.mem_cons, List.not_mem_nil, or_false]
  constructor
  · rintro ⟨n, ⟨hn, hrow, hcol⟩, h⟩
    exact ⟨n, hn, hrow, hcol, h⟩
  · rintro ⟨n, hn, hrow, hcol, h⟩
    exact ⟨n, ⟨hn, hrow, hcol⟩, h⟩

/-- A mesh with at least one face has `resolution ≥ 1`. -/
lemma faces_r_pos (r f : Nat) (hf : f ∈ faces r) : 1 ≤ r := by
  obtain ⟨n, hn, hrow, _, _⟩ := (mem_faces_iff r f).mp hf
  have := row_lt r n hn
  omega

/-- The vertex triples of the two faces owned by vertex `n`, by row parity. -/
lemma faceToVertices_owner (r n : Nat) :
    faceToVertices r (2*n) =
      (if rowOf r n % 2 = 0 then [n, n+r+2, n+r+1] else [n, n+1, n+r+1])
    ∧ faceToVertices r (2*n+1) =
      (if rowOf r n % 2 = 0 then [n, n+1, n+r+2] else [n+1, n+r+2, n+r+1]) := by
  have hd : 2*n/2 = n := by omega
  have hd' : (2*n+1)/2 = n := by omega
  have hm : 2*n % 2 = 0 := by omega
  have hm' : (2*n+1) % 2 = 1 := by omega
  constructor <;>
    · unfold faceToVertices
      simp only [hd, hd', hm, hm']
      split <;> simp

/-- Face vertex triples have no duplicates (for `resolution ≥ 1`). -/
lemma faceToVertices_nodup (r f : Nat) (hr : 1 ≤ r) : (faceToVertices r f).Nodup := by
  simp only [faceToVertices]
  by_cases h1 : rowOf r (f / 2) % 2 = 0 <;> by_cases h2 : f % 2 = 0 <;>
    simp [h1, h2] <;> omega

/-- The face list has no duplicates. -/
lemma faces_nodup (r : Nat) : (faces r).Nodup := by
  unfold faces
  rw [List.nodup_flatMap]
  constructor
  · intro n _
    simp
  · refine List.Pairwise.filter _ ?_
    have : ∀ a b : Nat, a ≠ b → Function.onFun List.Disjoint (fun n => [2*n, 2*n+1]) a b := by
      intro a b hab
      intro x hx hy
      simp only [List.mem_cons, List.not_mem_nil, or_false] at hx hy
      omega
    exact List.Pairwise.imp (fun h => this _ _ h) (List.nodup_range _)

/-- Membership in a vertex's face list. -/
lemma mem_vertexToFaces (r v g : Nat) :
    g ∈ vertexToFaces r v ↔ g ∈ faces r ∧ v ∈ faceToVertices r g := by
  unfold vertexToFaces
  simp [List.mem_filter]

/-- A vertex's face list counts each face at most once, so its count is an
indicator. -/
lemma count_vertexToFaces (r v g : Nat) :
    (vertexToFaces r v).count g =
      if g ∈ faces r ∧ v ∈ faceToVertices r g then 1 else 0 := by
  have hnd : (vertexToFaces r v).Nodup := (faces_nodup r).filter _
  by_cases h : g ∈ faces r ∧ v ∈ faceToVertices r g
  · rw [if_pos h]
    exact List.count_eq_one_of_mem hnd ((mem_vertexToFaces r v g).mpr h)
  · rw [if_neg h]
    refine List.count_eq_zero.mpr ?_
    intro hmem
    exact h ((mem_vertexToFaces r v g).mp hmem)

/-- Sum of an indicator over a list is a `countP`. -/
lemma sum_map_ite_one (l : List Nat) (P : Nat → Prop) [DecidablePred P] :
    (l.map (fun v => if P v then 1 else 0)).sum = l.countP (fun v => decide (P v)) := by
  induction l with
  | nil => simp
  | cons a t ih =>
    rw [List.map_cons, List.sum_cons, ih, List.countP_cons]
    by_cases h : P a <;> simp [h]
    omega

/-- The candidate count of `adjacentFaces` equals the shared-vertex count,
for candidates that are actual faces distinct from `f`. -/
lemma count_adjCands (r f g : Nat) :
    (adjCands r f).count g =
      if g = f then 0
      else if g ∈ faces r then
        ((faceToVertices r f).countP (fun v => decide (v ∈ faceToVertices r g)))
      else 0 := by
  unfold adjCands
  by_cases hgf : g = f
  · rw [if_pos hgf]
    refine List.count_eq_zero.mpr ?_
    intro hmem
    have := (List.mem_filter.mp hmem).2
    simp [hgf] at this
  · rw [if_neg hgf]
    rw [List.count_filter (by simp [hgf])]
    rw [List.count_flatMap]
    by_cases hgfa : g ∈ faces r
    · rw [if_pos hgfa]
      have hmap : (faceToVertices r f).map (List.count g ∘ vertexToFaces r) =
          (faceToVertices r f).map (fun v => if v ∈ faceToVertices r g then 1 else 0) := by
        refine List.map_congr_left ?_
        intro v _
        simp only [Function.comp_apply, count_vertexToFaces]
        by_cases hv : v ∈ faceToVertices r g <;> simp [hv, hgfa]
      rw [hmap, sum_map_ite_one]
    · rw [if_neg hgfa]
      have hmap : (faceToVertices r f).map (List.count g ∘ vertexToFaces r) =
          (faceToVertices r f).map (fun _ => 0) := by
        refine List.map_congr_left ?_
        intro v _
        simp only [Function.comp_apply, count_vertexToFaces]
        simp [hgfa]
      rw [hmap]
      simp

/-- `sharedVertexCount` as a `countP`. -/
lemma sharedVertexCount_eq_countP (r f g : Nat) :
    sharedVertexCount r f g =
      (faceToVertices r f).countP (fun v => decide (v ∈ faceToVertices r g)) := by
  unfold sharedVertexCount
  rw [List.countP_eq_length_filter]

/-- The shared-vertex count is symmetric (both triples are duplicate-free). -/
lemma sharedVertexCount_comm (r f g : Nat) (hr : 1 ≤ r) :
    sharedVertexCount r f g = sharedVertexCount r g f := by
  unfold sharedVertexCount
  have h1 := faceToVertices_nodup r f hr
  have h2 := faceToVertices_nodup r g hr
  rw [← List.toFinset_card_of_nodup (h1.filter _), ← List.toFinset_card_of_nodup (h2.filter _)]
  congr 1
  ext x
  simp only [List.mem_toFinset, List.mem_filter, decide_eq_true_eq]
  tauto

end Flock

namespace Flock

/-- Two distinct faces of the mesh cannot share all three vertices: the
exhaustive case analysis over both faces' owner parities and triangle
parities leaves no consistent assignment. -/
lemma eq_of_shared_three (r f g : Nat) (hf : f ∈ faces r) (hg : g ∈ faces r)
    (hsub : ∀ v ∈ faceToVertices r f, v ∈ faceToVertices r g) : f = g := by
  obtain ⟨n1, hn1, hrow1, hcol1, hb1⟩ := (mem_faces_iff r f).mp hf
  obtain ⟨n2, hn2, hrow2, hcol2, hb2⟩ := (mem_faces_iff r g).mp hg
  have hlt1 : rowOf r n1 < r + 1 := row_lt r n1 hn1
  have hlt2 : rowOf r n2 < r + 1 := row_lt r n2 hn2
  have hev1 := (faceToVertices_owner r n1).1
  have hod1 := (faceToVertices_owner r n1).2
  have hev2 := (faceToVertices_owner r n2).1
  have hod2 := (faceToVertices_owner r n2).2
  rcases hb1 with rfl | rfl <;> rcases hb2 with rfl | rfl <;>
    by_cases hp1 : rowOf r n1 % 2 = 0 <;> by_cases hp2 : rowOf r n2 % 2 = 0 <;>
    simp only [hev1, hod1, hev2, hod2, if_pos, if_neg, hp1, hp2, if_true, if_false,
      List.mem_cons, List.not_mem_nil, or_false] at hsub <;>
    have h1 := hsub _ (Or.inl rfl) <;>
    have h2 := hsub _ (Or.inr (Or.inl rfl)) <;>
    have h3 := hsub _ (Or.inr (Or.inr rfl)) <;>
    rcases h1 with h1 | h1 | h1 <;> rcases h2 with h2 | h2 | h2 <;>
    rcases h3 with h3 | h3 | h3 <;> omega

end Flock

namespace Flock

/-- Every face triple has exactly three entries. -/
lemma faceToVertices_length (r f : Nat) : (faceToVertices r f).length = 3 := by
  simp only [faceToVertices]
  by_cases h1 : rowOf r (f / 2) % 2 = 0 <;> by_cases h2 : f % 2 = 0 <;> simp [h1, h2]

/-- Membership in `adjacentFaces` characterised by the shared-vertex count:
exactly the other faces of the mesh sharing exactly two vertices. -/
lemma mem_adjacentFaces_characterization (r f g : Nat) (hf : f ∈ faces r) :
    g ∈ adjacentFaces r f ↔ g ∈ faces r ∧ g ≠ f ∧ sharedVertexCount r f g = 2 := by
  rw [mem_adjacentFaces_iff]
  constructor
  · rintro ⟨hmem, hcount⟩
    have hgf : g ≠ f := by
      have hb := (List.mem_filter.mp hmem).2
      simpa using hb
    have hgfaces : g ∈ faces r := by
      have h0 := (List.mem_filter.mp hmem).1
      obtain ⟨v, _, hvf⟩ := List.mem_flatMap.mp h0
      exact ((mem_vertexToFaces r v g).mp hvf).1
    refine ⟨hgfaces, hgf, ?_⟩
    rw [count_adjCands, if_neg hgf, if_pos hgfaces] at hcount
    rw [sharedVertexCount_eq_countP]
    have hle : (faceToVertices r f).countP (fun v => decide (v ∈ faceToVertices r g)) ≤ 3 :=
      le_trans (List.countP_le_length _) (le_of_eq (faceToVertices_length r f))
    have hne3 : (faceToVertices r f).countP (fun v => decide (v ∈ faceToVertices r g)) ≠ 3 := by
      intro h3
      have hall : ∀ v ∈ faceToVertices r f, v ∈ faceToVertices r g := by
        have := List.countP_eq_length.mp (h3.trans (faceToVertices_length r f).symm)
        intro v hv
        simpa using this v hv
      exact hgf (eq_of_shared_three r f g hf hgfaces hall).symm
    omega
  · rintro ⟨hgfaces, hgf, hshared⟩
    have hcount : (adjCands r f).count g = 2 := by
      rw [count_adjCands, if_neg hgf, if_pos hgfaces, ← sharedVertexCount_eq_countP, hshared]
    have hmem : g ∈ adjCands r f := List.count_pos_iff.mp (by omega)
    exact ⟨hmem, by omega⟩

/-- C2 (confirmed): for every face `f` of the mesh, `adjacentFaces(f)`
contains exactly the faces `g ≠ f` of the mesh sharing exactly 2 vertices
with `f` (count-1 corner contacts excluded), never contains `f` itself, and
is symmetric: for faces `f` and `g`, `g ∈ adjacentFaces(f)` iff
`f ∈ adjacentFaces(g)`. -/
theorem adjacentFaces_spec (r f g : Nat) (hf : f ∈ faces r) :
    (g ∈ adjacentFaces r f ↔ g ∈ faces r ∧ g ≠ f ∧ sharedVertexCount r f g = 2)
    ∧ f ∉ adjacentFaces r f
    ∧ (g ∈ faces r → (g ∈ adjacentFaces r f ↔ f ∈ adjacentFaces r g)) := by
  have hr : 1 ≤ r := faces_r_pos r f hf
  refine ⟨mem_adjacentFaces_characterization r f g hf, ?_, ?_⟩
  · intro hmem
    exact ((mem_adjacentFaces_characterization r f f hf).mp hmem).2.1 rfl
  · intro hg
    rw [mem_adjacentFaces_characterization r f g hf,
        mem_adjacentFaces_characterization r g f hg]
    constructor
    · rintro ⟨_, hne, hsh⟩
      refine ⟨hf, hne.symm, ?_⟩
      rw [sharedVertexCount_comm r g f hr]
      exact hsh
    · rintro ⟨_, hne, hsh⟩
      refine ⟨hg, hne.symm, ?_⟩
      rw [sharedVertexCount_comm r f g hr]
      exact hsh

/-- Witness for C2 on the resolution-2 mesh: faces 0 and 1 are adjacent and
the characterisation instantiates concretely. -/
theorem adjacentFaces_spec_witness :
    (0 ∈ faces 2) ∧ (1 ∈ faces 2)
    ∧ (1 ∈ adjacentFaces 2 0 ↔ 1 ∈ faces 2 ∧ 1 ≠ 0 ∧ sharedVertexCount 2 0 1 = 2)
    ∧ 0 ∉ adjacentFaces 2 0
    ∧ (1 ∈ adjacentFaces 2 0 ↔ 0 ∈ adjacentFaces 2 1) := by
  have h := adjacentFaces_spec 2 0 1 (by decide)
  exact ⟨by decide, by decide, h.1, h.2.1, h.2.2 (by decide)⟩

end Flock

namespace Flock

/-! ### Frame lemmas: which fields each phase touches -/

/-- Fold-preservation helper. -/
lemma foldl_invariant {α β : Type _} (f : α → β → α) (l : List β) (Pp : α → Prop)
    (h : ∀ a b, Pp a → Pp (f a b)) : ∀ a, Pp a → Pp (l.foldl f a) := by
  induction l with
  | nil => intro a ha; exact ha
  | cons b t ih =>
    intro a ha
    exact ih _ (h a b ha)

/-- `templePhase` changes only the temple level. -/
lemma templePhase_frame (st : AppState) :
    (templePhase st).sheep = st.sheep ∧ (templePhase st).slotFree = st.slotFree
    ∧ (templePhase st).flockingPoint = st.flockingPoint
    ∧ (templePhase st).waterLevel = st.waterLevel
    ∧ (templePhase st).waterCounter = st.waterCounter
    ∧ (templePhase st).frame = st.frame
    ∧ (templePhase st).sheepStoredFood = st.sheepStoredFood
    ∧ (templePhase st).depth = st.depth ∧ (templePhase st).grass = st.grass := by
  unfold templePhase
  split_ifs <;> exact ⟨rfl, rfl, rfl, rfl, rfl, rfl, rfl, rfl, rfl⟩

/-- `spawnPhase` changes only the sheep list, the slot map and the stored
food. -/
lemma spawnPhase_frame (P : Params) (st : AppState) (k : Nat) :
    (spawnPhase P st k).flockingPoint = st.flockingPoint
    ∧ (spawnPhase P st k).waterLevel = st.waterLevel
    ∧ (spawnPhase P st k).waterCounter = st.waterCounter
    ∧ (spawnPhase P st k).frame = st.frame
    ∧ (spawnPhase P st k).depth = st.depth ∧ (spawnPhase P st k).grass = st.grass
    ∧ (spawnPhase P st k).templeLevel = st.templeLevel := by
  unfold spawnPhase
  split
  · split <;> exact ⟨rfl, rfl, rfl, rfl, rfl, rfl, rfl⟩
  · exact ⟨rfl, rfl, rfl, rfl, rfl, rfl, rfl⟩

/-- `slowTick` never touches the water level, the water counter, the frame
counter or the flocking point. -/
lemma slowTick_frame (P : Params) (st : AppState) (o : SlowOracle) :
    (slowTick P st o).waterLevel = st.waterLevel
    ∧ (slowTick P st o).waterCounter = st.waterCounter
    ∧ (slowTick P st o).frame = st.frame
    ∧ (slowTick P st o).flockingPoint = st.flockingPoint := by
  unfold slowTick
  have ht := templePhase_frame (spawnPhase P
    { st with
      depth := (flood P.r P.hm st.waterLevel st.depth).1,
      sheep := (sheepLoop P st.flockingPoint (flood P.r P.hm st.waterLevel st.depth).1
        o.perSheep 0 st.sheep st.slotFree st.grass st.sheepStoredFood).1,
      slotFree := (sheepLoop P st.flockingPoint (flood P.r P.hm st.waterLevel st.depth).1
        o.perSheep 0 st.sheep st.slotFree st.grass st.sheepStoredFood).2.1,
      grass := (sheepLoop P st.flockingPoint (flood P.r P.hm st.waterLevel st.depth).1
        o.perSheep 0 st.sheep st.slotFree st.grass st.sheepStoredFood).2.2.1,
      sheepStoredFood := (sheepLoop P st.flockingPoint (flood P.r P.hm st.waterLevel st.depth).1
        o.perSheep 0 st.sheep st.slotFree st.grass st.sheepStoredFood).2.2.2 }
    o.spawnSlotPerm)
  have hs := spawnPhase_frame P
    { st with
      depth := (flood P.r P.hm st.waterLevel st.depth).1,
      sheep := (sheepLoop P st.flockingPoint (flood P.r P.hm st.waterLevel st.depth).1
        o.perSheep 0 st.sheep st.slotFree st.grass st.sheepStoredFood).1,
      slotFree := (sheepLoop P st.flockingPoint (flood P.r P.hm st.waterLevel st.depth).1
        o.perSheep 0 st.sheep st.slotFree st.grass st.sheepStoredFood).2.1,
      grass := (sheepLoop P st.flockingPoint (flood P.r P.hm st.waterLevel st.depth).1
        o.perSheep 0 st.sheep st.slotFree st.grass st.sheepStoredFood).2.2.1,
      sheepStoredFood := (sheepLoop P st.flockingPoint (flood P.r P.hm st.waterLevel st.depth).1
        o.perSheep 0 st.sheep st.slotFree st.grass st.sheepStoredFood).2.2.2 }
    o.spawnSlotPerm
  refine ⟨?_, ?_, ?_, ?_⟩
  · rw [ht.2.2.2.1, hs.2.1]
  · rw [ht.2.2.2.2.1, hs.2.2.1]
  · rw [ht.2.2.2.2.2.1, hs.2.2.2.1]
  · rw [ht.2.2.1, hs.1]

end Flock

namespace Flock

/-- Every tier of the water-level step is positive. -/
lemma tierStep_pos (w : ℚ) : 0 < tierStep w := by
  unfold tierStep
  split_ifs <;> norm_num

/-- Case analysis of the water ratchet: skipped without a flocking point;
any change happens exactly on counter 600 below the cap, adds the tiered
step clamped to the cap, resets the counter and strictly increases the
level; the cap is preserved. -/
lemma waterPhase_spec (P : Params) (st : AppState) :
    (st.flockingPoint = none → waterPhase P st = st)
    ∧ ((waterPhase P st).waterLevel ≠ st.waterLevel →
        st.waterCounter = 600 ∧ (waterPhase P st).waterCounter = 0
        ∧ (waterPhase P st).waterLevel =
            min (P.hm (highestVertex P.r P.hm) + 1) (st.waterLevel + tierStep st.waterLevel)
        ∧ st.waterLevel < (waterPhase P st).waterLevel)
    ∧ (st.waterLevel ≤ P.hm (highestVertex P.r P.hm) + 1 →
        (waterPhase P st).waterLevel ≤ P.hm (highestVertex P.r P.hm) + 1) := by
  rcases hfp : st.flockingPoint with _ | x
  · have he : waterPhase P st = st := by
      unfold waterPhase
      rw [hfp]
    exact ⟨fun _ => he, fun hne => absurd (congrArg AppState.waterLevel he) hne,
      fun h => by rw [he]; exact h⟩
  · refine ⟨fun h => Option.noConfusion h, ?_, ?_⟩
    · unfold waterPhase
      rw [hfp]
      dsimp only
      split_ifs with hcond
      · refine fun _ => ⟨hcond.1, rfl, rfl, ?_⟩
        exact lt_min hcond.2 (by linarith [tierStep_pos st.waterLevel])
      · exact fun hne => absurd rfl hne
    · unfold waterPhase
      rw [hfp]
      dsimp only
      split_ifs with hcond
      · exact fun _ => min_le_left _ _
      · exact fun h => h

/-- A rendered frame changes the water level and counter exactly as the
ratchet applied to the post-death-sweep state does (the death sweep and slow
tick never touch them). -/
lemma renderStep_water (P : Params) (st : AppState) (o : TickOracle) :
    (renderStep P st o).waterLevel = (waterPhase P (deathPhase P st)).waterLevel
    ∧ (renderStep P st o).waterCounter = (waterPhase P (deathPhase P st)).waterCounter := by
  unfold renderStep tick
  dsimp only
  split
  · have h := slowTick_frame P (waterPhase P (deathPhase P st)) o.slow
    exact ⟨h.1, h.2.1⟩
  · exact ⟨rfl, rfl⟩

/-- The initial-flock loop touches only the sheep list and the slot map. -/
lemma initialFlock_frame (P : Params) (fp : Nat) (o : ClickOracle) (st : AppState) :
    (initialFlock P fp o st).waterLevel = st.waterLevel
    ∧ (initialFlock P fp o st).waterCounter = st.waterCounter
    ∧ (initialFlock P fp o st).frame = st.frame
    ∧ (initialFlock P fp o st).flockingPoint = st.flockingPoint
    ∧ (initialFlock P fp o st).depth = st.depth
    ∧ (initialFlock P fp o st).grass = st.grass
    ∧ (initialFlock P fp o st).sheepStoredFood = st.sheepStoredFood
    ∧ (initialFlock P fp o st).templeLevel = st.templeLevel := by
  unfold initialFlock
  refine foldl_invariant _ _
    (fun s => s.waterLevel = st.waterLevel ∧ s.waterCounter = st.waterCounter
      ∧ s.frame = st.frame ∧ s.flockingPoint = st.flockingPoint ∧ s.depth = st.depth
      ∧ s.grass = st.grass ∧ s.sheepStoredFood = st.sheepStoredFood
      ∧ s.templeLevel = st.templeLevel) ?_ st
    ⟨rfl, rfl, rfl, rfl, rfl, rfl, rfl, rfl⟩
  intro a i ha
  split
  · exact ha
  · split
    · exact ha
    · exact ha

/-- A click never touches the water level, counter or frame. -/
lemma raycastStep_frame (P : Params) (st : AppState) (f : Nat) (o : ClickOracle) :
    (raycastStep P st f o).waterLevel = st.waterLevel
    ∧ (raycastStep P st f o).waterCounter = st.waterCounter
    ∧ (raycastStep P st f o).frame = st.frame := by
  unfold raycastStep
  split
  · exact ⟨rfl, rfl, rfl⟩
  · split
    · have h := initialFlock_frame P f o { st with flockingPoint := some f }
      exact ⟨h.1, h.2.1, h.2.2.1⟩
    · exact ⟨rfl, rfl, rfl⟩

/-- The water-level cap invariant holds at every reachable state. -/
lemma reachable_waterLevel_le (P : Params)
    (hinit : P.initWaterLevel ≤ P.hm (highestVertex P.r P.hm) + 1) :
    ∀ st, Reachable P st → st.waterLevel ≤ P.hm (highestVertex P.r P.hm) + 1 := by
  intro st h
  induction h with
  | init => exact hinit
  | @step s1 s2 hr hstep ih =>
    cases hstep with
    | render o =>
      rw [(renderStep_water P s1 o).1]
      exact (waterPhase_spec P (deathPhase P s1)).2.2 ih
    | click f o =>
      rw [(raycastStep_frame P s1 f o).1]
      exact ih

end Flock

namespace Flock

/-- While a flocking point exists and the level does not change, the ratchet
counter just increments. -/
lemma waterPhase_counter_succ (P : Params) (st : AppState) (x : Nat)
    (hfp : st.flockingPoint = some x)
    (hnc : (waterPhase P st).waterLevel = st.waterLevel) :
    (waterPhase P st).waterCounter = st.waterCounter + 1 := by
  unfold waterPhase at hnc ⊢
  rw [hfp] at hnc ⊢
  dsimp only at hnc ⊢
  split_ifs at hnc ⊢ with hcond
  · exfalso
    have hlt := lt_min hcond.2 (by linarith [tierStep_pos st.waterLevel] :
      st.waterLevel < st.waterLevel + tierStep st.waterLevel)
    dsimp only at hnc
    rw [hnc] at hlt
    exact lt_irrefl _ hlt
  · rfl

/-- C8 (confirmed): the water level changes only while a flocking point
exists (clicks never change it, and a frame leaves it unchanged when the
flocking point is absent); whenever a frame changes it, the counter was 600
and is reset to 0 and the new level is the old one plus the tiered step
(`+3` below `-35`, `+5` below 20, `+10` below 40, `+20` below 90, `+35`
otherwise — the definition of `tierStep`), clamped to
`heightmap[highestVertex] + 1`, a strict increase; and when the initial
water level is at most `heightmap[highestVertex] + 1`, every reachable
state's water level stays at most that bound. -/
theorem water_ratchet_spec (P : Params) (st : AppState) :
    (∀ o : TickOracle, st.flockingPoint = none →
        (renderStep P st o).waterLevel = st.waterLevel)
    ∧ (∀ (f : Nat) (o : ClickOracle), (raycastStep P st f o).waterLevel = st.waterLevel)
    ∧ (∀ o : TickOracle, (renderStep P st o).waterLevel ≠ st.waterLevel →
        st.waterCounter = 600 ∧ (renderStep P st o).waterCounter = 0
        ∧ (renderStep P st o).waterLevel =
            min (P.hm (highestVertex P.r P.hm) + 1) (st.waterLevel + tierStep st.waterLevel)
        ∧ st.waterLevel < (renderStep P st o).waterLevel)
    ∧ (∀ (o : TickOracle) (x : Nat), st.flockingPoint = some x →
        (renderStep P st o).waterLevel = st.waterLevel →
        (renderStep P st o).waterCounter = st.waterCounter + 1)
    ∧ (P.initWaterLevel ≤ P.hm (highestVertex P.r P.hm) + 1 → Reachable P st →
        st.waterLevel ≤ P.hm (highestVertex P.r P.hm) + 1) := by
  have hdp : (deathPhase P st).flockingPoint = st.flockingPoint := rfl
  have hdpw : (deathPhase P st).waterLevel = st.waterLevel := rfl
  refine ⟨?_, ?_, ?_, ?_, ?_⟩
  · intro o hfp
    rw [(renderStep_water P st o).1,
      (waterPhase_spec P (deathPhase P st)).1 (hdp.trans hfp)]
    exact hdpw
  · intro f o
    exact (raycastStep_frame P st f o).1
  · intro o hne
    rw [(renderStep_water P st o).1] at hne ⊢
    rw [(renderStep_water P st o).2]
    have h := (waterPhase_spec P (deathPhase P st)).2.1 (by rw [hdpw]; exact hne)
    exact ⟨h.1, h.2.1, h.2.2.1, h.2.2.2⟩
  · intro o x hfp hnc
    rw [(renderStep_water P st o).1] at hnc
    rw [(renderStep_water P st o).2]
    exact waterPhase_counter_succ P (deathPhase P st) x (hdp.trans hfp) (by rw [hdpw]; exact hnc)
  · intro hinit hre
    exact reachable_waterLevel_le P hinit st hre

/-- Concrete parameters used by witnesses: the flat resolution-1 mesh. -/
def witnessParams : Params :=
  { r := 1, width := 1, heightStep := 0, hm := fun _ => 0, fert := fun _ => 0,
    initWaterLevel := 0 }

/-- Witness for C8 at the initial state of the flat resolution-1 game: no
flocking point, so a frame leaves the water level unchanged, and the cap
invariant holds at the initial (reachable) state. -/
theorem water_ratchet_spec_witness :
    (renderStep witnessParams (initialState witnessParams) {}).waterLevel
        = (initialState witnessParams).waterLevel
    ∧ (initialState witnessParams).waterLevel ≤
        witnessParams.hm (highestVertex witnessParams.r witnessParams.hm) + 1 := by
  have h := water_ratchet_spec witnessParams (initialState witnessParams)
  refine ⟨h.1 {} rfl, h.2.2.2.2 ?_ Reachable.init⟩
  show (0:ℚ) ≤ 0 + 1
  norm_num

end Flock

namespace Flock

/-! ### Claim C6: death timing -/

/-- Advancing the movement animation never changes the dead flag. -/
lemma sheepAnimTick_isDead (s : SheepM) : (sheepAnimTick s).isDead = s.isDead := by
  unfold sheepAnimTick
  split
  · rfl
  · split <;> rfl

/-- The death sweep's mark-then-filter equals filtering the submerged (and
already dead) sheep out first and advancing the animation of the rest. -/
lemma death_filter_map (P : Params) (depth : Nat → ℚ) (l : List SheepM) :
    ((l.map (fun s => if submergedSheep P depth s then sheepDie s else sheepAnimTick s)).filter
      (fun s => !s.isDead)) =
    (l.filter (fun s => !s.isDead && !submergedSheep P depth s)).map sheepAnimTick := by
  induction l with
  | nil => rfl
  | cons a t ih =>
    rw [List.map_cons, List.filter_cons, List.filter_cons]
    by_cases hsub : submergedSheep P depth a
    · have h1 : (sheepDie a).isDead = true := rfl
      simp [hsub, h1, ih]
    · by_cases hd : a.isDead
      · simp [hsub, hd, ih, sheepAnimTick_isDead]
      · simp [hsub, hd, ih, sheepAnimTick_isDead]

/-- The live list after the death sweep: exactly the previously live,
non-submerged sheep, animation-advanced. -/
lemma deathPhase_sheep (P : Params) (st : AppState) :
    (deathPhase P st).sheep =
      (st.sheep.filter (fun s => !s.isDead && !submergedSheep P st.depth s)).map
        sheepAnimTick := by
  unfold deathPhase
  exact death_filter_map P st.depth st.sheep

/-- Placing a sheep never changes its dead flag. -/
lemma setSheepOnFace_fst_isDead (order : List Nat) (sh : SheepM) (g : Nat)
    (m : Nat → Option Slots) :
    ∀ s', (setSheepOnFace order sh g m).1 = some s' → s'.isDead = sh.isDead := by
  unfold setSheepOnFace
  dsimp only
  split
  · intro s' h
    exact absurd h (by simp)
  · intro s' h
    simp only [Option.some.injEq] at h
    rw [← h]

/-- One pass of the per-sheep slow-tick loop keeps the dead flag. -/
lemma processSheep_isDead (P : Params) (flock : Option Nat) (depth : Nat → ℚ)
    (os : SheepOracle) (s : SheepM) (m : Nat → Option Slots) (grass : Nat → ℚ) (food : ℚ) :
    ((processSheep P flock depth os s m grass food).1).isDead = s.isDead := by
  unfold processSheep
  split
  · rfl
  · split
    · rfl
    · dsimp only
      split
      · split
        · split
          · next s' m' heq =>
            exact setSheepOnFace_fst_isDead _ s _ m s' (congrArg Prod.fst heq)
          · rfl
        · rfl
      · split
        · rfl
        · split
          · split
            · next s' m' heq =>
              exact setSheepOnFace_fst_isDead _ s _ m s' (congrArg Prod.fst heq)
            · rfl
          · rfl

/-- The slow-tick loop keeps every sheep's dead flag. -/
lemma sheepLoop_isDead (P : Params) (flock : Option Nat) (depth : Nat → ℚ)
    (oper : Nat → SheepOracle) :
    ∀ (l : List SheepM) (i : Nat) (m : Nat → Option Slots) (gr : Nat → ℚ) (fd : ℚ),
      (∀ s ∈ l, s.isDead = false) →
      ∀ s' ∈ (sheepLoop P flock depth oper i l m gr fd).1, s'.isDead = false := by
  intro l
  induction l with
  | nil =>
    intro i m gr fd _ s' hs'
    simp [sheepLoop] at hs'
  | cons a t ih =>
    intro i m gr fd hall s' hs'
    rw [sheepLoop] at hs'
    simp only [List.mem_cons] at hs'
    rcases hs' with rfl | hs'
    · rw [processSheep_isDead]
      exact hall a (List.mem_cons_self a t)
    · exact ih (i + 1) _ _ _ (fun s hs => hall s (List.mem_cons_of_mem a hs)) s' hs'

/-- The spawn phase only appends live sheep. -/
lemma spawnPhase_isDead (P : Params) (st : AppState) (k : Nat)
    (hall : ∀ s ∈ st.sheep, s.isDead = false) :
    ∀ s' ∈ (spawnPhase P st k).sheep, s'.isDead = false := by
  unfold spawnPhase
  split
  · split
    · next shm heq =>
      intro s' hs'
      simp only [List.mem_append, List.mem_singleton] at hs'
      rcases hs' with hs' | rfl
      · exact hall s' hs'
      · unfold trySpawnSheep at heq
        split at heq
        · exact absurd heq (by simp)
        · split at heq
          · exact absurd heq (by simp)
          · split at heq
            · next sh m' heq2 =>
              simp only [Option.some.injEq] at heq
              have := setSheepOnFace_fst_isDead _ newSheep _ st.slotFree sh
                (congrArg Prod.fst heq2)
              rw [← heq]
              exact this
            · exact absurd heq (by simp)
    · exact hall
  · exact hall

/-- A whole slow tick leaves no dead sheep in the live list. -/
lemma slowTick_isDead (P : Params) (st : AppState) (o : SlowOracle)
    (hall : ∀ s ∈ st.sheep, s.isDead = false) :
    ∀ s' ∈ (slowTick P st o).sheep, s'.isDead = false := by
  unfold slowTick
  intro s' hs'
  rw [(templePhase_frame _).1] at hs'
  refine spawnPhase_isDead P _ _ ?_ s' hs'
  intro s hs
  exact sheepLoop_isDead P _ _ _ _ _ _ _ _ hall s hs

end Flock

namespace Flock

/-- C6 (corrected): on every fast tick, each live sheep whose face is fully
submerged is marked dead (`die`) during that same tick — but, contrary to
the claim's "remains in the live agent list until the tick after", the very
same tick's filter already removes it: the post-sweep live list is exactly
the previously live, non-submerged sheep (animation-advanced), the rest of
the tick (water ratchet, possible slow tick) runs on that already-filtered
list, and the list `tick` returns never contains a dead sheep. -/
theorem death_same_tick (P : Params) (st : AppState) (o : TickOracle) :
    (∀ s ∈ st.sheep, submergedSheep P st.depth s = true →
      ((if submergedSheep P st.depth s then sheepDie s else sheepAnimTick s).isDead = true))
    ∧ (deathPhase P st).sheep =
        (st.sheep.filter (fun s => !s.isDead && !submergedSheep P st.depth s)).map sheepAnimTick
    ∧ tick P st o =
        (if (waterPhase P (deathPhase P st)).frame % 4 = 0
         then slowTick P (waterPhase P (deathPhase P st)) o.slow
         else waterPhase P (deathPhase P st))
    ∧ (∀ s' ∈ (tick P st o).sheep, s'.isDead = false) := by
  refine ⟨?_, deathPhase_sheep P st, rfl, ?_⟩
  · intro s _ hsub
    rw [if_pos hsub]
    rfl
  · intro s' hs'
    have hdp : ∀ s ∈ (waterPhase P (deathPhase P st)).sheep, s.isDead = false := by
      have hw : (waterPhase P (deathPhase P st)).sheep = (deathPhase P st).sheep := by
        unfold waterPhase
        rcases (deathPhase P st).flockingPoint with _ | x
        · rfl
        · dsimp only
          split_ifs <;> rfl
      rw [hw, deathPhase_sheep]
      intro s hs
      obtain ⟨s0, hs0, rfl⟩ := List.mem_map.mp hs
      rw [sheepAnimTick_isDead]
      have := (List.mem_filter.mp hs0).2
      simp only [Bool.and_eq_true, Bool.not_eq_true'] at this
      exact this.1
    unfold tick at hs'
    dsimp only at hs'
    split at hs'
    · exact slowTick_isDead P _ o.slow hdp s' hs'
    · exact hdp s' hs'

/-- A concrete state holding one live sheep on face 0 of the flat
resolution-1 mesh with every vertex under water; frame 1, so the next tick
has no slow phase. -/
def submergedState : AppState :=
  { sheep := [{ faceIndex := some 0, slot := 0, isDead := false, movement := none }],
    slotFree := fun x => if x = 0 then some (false, true, true) else none,
    flockingPoint := some 0, waterLevel := 0, waterCounter := 0, frame := 1,
    sheepStoredFood := 0, templeLevel := 1, depth := fun _ => 1, grass := fun _ => 0 }

unseal Rat.add Rat.mul Rat.inv Rat.sub in
/-- C6 counterexample: the sheep of `submergedState` sits on a fully
submerged face and is alive; after one single `tick` the live list is
already empty — the dead sheep does not remain in the live agent list until
the tick after death was flagged. -/
theorem death_same_tick_counterexample :
    submergedState.sheep =
      [{ faceIndex := some 0, slot := 0, isDead := false, movement := none }]
    ∧ submergedSheep witnessParams submergedState.depth
        { faceIndex := some 0, slot := 0, isDead := false, movement := none } = true
    ∧ (tick witnessParams submergedState {}).sheep = [] := by
  refine ⟨rfl, by decide, by decide⟩

end Flock

namespace Flock

/-! ### Slot bookkeeping lemmas for the occupancy claims -/

/-- Whether slot `s` of face `f` is currently marked occupied (`false` in the
`faceSheepSlotFree` record means taken; a missing record means all free). -/
def slotTaken (m : Nat → Option Slots) (f s : Nat) : Bool :=
  match m f with
  | some sl => !(slotGet sl s)
  | none => false

/-- A free slot index is a real slot (0-2). -/
lemma slotGet_lt_three (sl : Slots) (i : Nat) (h : slotGet sl i = true) : i < 3 := by
  rcases i with _ | _ | _ | i
  · omega
  · omega
  · omega
  · simp [slotGet] at h

/-- Writing a slot then reading it back. -/
lemma slotGet_slotSet_self (sl : Slots) (i : Nat) (b : Bool) (h : i < 3) :
    slotGet (slotSet sl i b) i = b := by
  rcases i with _ | _ | _ | i
  · rfl
  · rfl
  · rfl
  · omega

/-- Writing one slot leaves the others unchanged. -/
lemma slotGet_slotSet_ne (sl : Slots) (i j : Nat) (b : Bool) (h : i ≠ j) :
    slotGet (slotSet sl i b) j = slotGet sl j := by
  rcases i with _ | _ | _ | i <;> rcases j with _ | _ | _ | j <;>
    first
    | rfl
    | omega
    | (unfold slotSet slotGet; rfl)

/-- The all-free record has every real slot free. -/
lemma slotGet_default (s : Nat) (h : s < 3) : slotGet (true, true, true) s = true := by
  rcases s with _ | _ | _ | s
  · rfl
  · rfl
  · rfl
  · omega

/-- Occupancy after a point update of the record. -/
lemma slotTaken_mapSet (m : Nat → Option Slots) (g : Nat) (v : Slots) (f s : Nat) :
    slotTaken (mapSet m g v) f s = if f = g then !(slotGet v s) else slotTaken m f s := by
  unfold slotTaken mapSet
  by_cases h : f = g <;> simp [h]

/-- Creating a face's (all-free) record changes no real slot's occupancy. -/
lemma slotTaken_ensure (m : Nat → Option Slots) (g f s : Nat) (hs : s < 3) :
    slotTaken (mapSet m g ((m g).getD (true, true, true))) f s = slotTaken m f s := by
  rw [slotTaken_mapSet]
  by_cases h : f = g
  · subst h
    rcases hmg : m f with _ | sl
    · simp only [hmg, Option.getD_none, if_pos]
      unfold slotTaken
      rw [hmg]
      simp [slotGet_default s hs]
    · simp only [hmg, Option.getD_some, if_pos]
      unfold slotTaken
      rw [hmg]
  · simp [h]

end Flock

namespace Flock

end Flock

namespace Flock

/-- Releasing the old slot: every other real slot keeps its occupancy, and
the released (real) slot ends up free. -/
lemma freeOldSlot_spec (sh : SheepM) (m : Nat → Option Slots) (hsh3 : sh.slot < 3) :
    (∀ f s, ¬(sh.faceIndex = some f ∧ sh.slot = s) →
        slotTaken (freeOldSlot sh m) f s = slotTaken m f s)
    ∧ (∀ f, sh.faceIndex = some f → slotTaken (freeOldSlot sh m) f sh.slot = false) := by
  unfold freeOldSlot
  rcases hsf : sh.faceIndex with _ | f0
  · exact ⟨fun _ _ _ => by trivial, fun f h => Option.noConfusion h⟩
  · dsimp only
    rcases hm0 : m f0 with _ | sl <;> simp only [hm0]
    · refine ⟨fun _ _ _ => by trivial, fun f h => ?_⟩
      have hf : f0 = f := Option.some.inj h
      subst hf
      unfold slotTaken
      rw [hm0]
    · constructor
      · intro f s hne
        rw [slotTaken_mapSet]
        by_cases hf : f = f0
        · subst hf
          rw [if_pos rfl]
          have hss : sh.slot ≠ s := fun h => hne ⟨rfl, h⟩
          rw [slotGet_slotSet_ne sl sh.slot s true hss]
          unfold slotTaken
          rw [hm0]
        · rw [if_neg hf]
      · intro f h
        have hf : f0 = f := Option.some.inj h
        subst hf
        rw [slotTaken_mapSet, if_pos rfl, slotGet_slotSet_self sl sh.slot true hsh3]
        rfl

/-- Releasing a slot never deletes a face's record. -/
lemma freeOldSlot_some (sh : SheepM) (m : Nat → Option Slots) (f : Nat) (sl : Slots)
    (h : m f = some sl) : ∃ sl', freeOldSlot sh m f = some sl' := by
  unfold freeOldSlot
  rcases hsf : sh.faceIndex with _ | f0
  · exact ⟨sl, h⟩
  · dsimp only
    rcases hm0 : m f0 with _ | sl0 <;> simp only [hm0]
    · exact ⟨sl, h⟩
    · unfold mapSet
      by_cases hf : f = f0
      · exact ⟨slotSet sl0 sh.slot true, by rw [if_pos hf]⟩
      · exact ⟨sl, by rw [if_neg hf]; exact h⟩

end Flock

namespace Flock

/-- Full characterisation of `setSheepOnFace` on the slot record.  On the
error path only the target face's record is (possibly) created, which
changes no occupancy.  On success the chosen slot was free on the target
face and becomes taken, the moved sheep's old (real) slot ends up free, and
every other real slot keeps its occupancy; the returned sheep is the input
sheep moved to the target face and slot with a fresh movement and unchanged
dead flag. -/
lemma setSheepOnFace_spec (order : List Nat) (sh : SheepM) (g : Nat)
    (m : Nat → Option Slots) (hsh3 : sh.slot < 3) :
    (∀ m1, setSheepOnFace order sh g m = (none, m1) →
        ∀ f s, s < 3 → slotTaken m1 f s = slotTaken m f s)
    ∧ ∀ s' m', setSheepOnFace order sh g m = (some s', m') →
        s'.slot < 3 ∧ s'.faceIndex = some g ∧ s'.isDead = sh.isDead
        ∧ s'.movement = some 0
        ∧ slotTaken m g s'.slot = false
        ∧ slotTaken m' g s'.slot = true
        ∧ ∀ f s, s < 3 → ¬(f = g ∧ s = s'.slot) →
            (sh.faceIndex = some f → sh.slot = s → slotTaken m' f s = false)
            ∧ (¬(sh.faceIndex = some f ∧ sh.slot = s) →
                slotTaken m' f s = slotTaken m f s) := by
  unfold setSheepOnFace
  dsimp only
  rcases hfind : List.find? (fun i => slotGet ((m g).getD (true, true, true)) i) order
    with _ | t <;> simp only [hfind]
  · constructor
    · intro m1 hEq f s hs
      simp only [Prod.mk.injEq] at hEq
      rw [← hEq.2]
      exact slotTaken_ensure m g f s hs
    · intro s' m' hEq
      simp only [Prod.mk.injEq] at hEq
      exact absurd hEq.1 (by simp)
  · have hfree : slotGet ((m g).getD (true, true, true)) t = true :=
      List.find?_some hfind
    have ht3 : t < 3 := slotGet_lt_three _ t hfree
    have hm1g : mapSet m g ((m g).getD (true, true, true)) g =
        some ((m g).getD (true, true, true)) := by
      unfold mapSet
      simp
    obtain ⟨sl2, hm2g⟩ :=
      freeOldSlot_some sh (mapSet m g ((m g).getD (true, true, true))) g _ hm1g
    have hfreeSpec := freeOldSlot_spec sh (mapSet m g ((m g).getD (true, true, true))) hsh3
    have hensure := slotTaken_ensure m g
    constructor
    · intro m1 hEq
      simp only [Prod.mk.injEq] at hEq
      exact absurd hEq.1 (by simp)
    · intro s' m' hEq
      simp only [Prod.mk.injEq, Option.some.injEq] at hEq
      obtain ⟨hs', hm'⟩ := hEq
      subst hs'
      subst hm'
      have htakenold : slotTaken m g t = false := by
        unfold slotTaken
        rcases hmg : m g with _ | sl
        · rfl
        · rw [hmg, Option.getD_some] at hfree
          simp [hfree]
      have hstar : ∀ f s, ¬(f = g ∧ s = t) →
          slotTaken (mapSet (freeOldSlot sh (mapSet m g ((m g).getD (true, true, true)))) g
            (slotSet ((freeOldSlot sh (mapSet m g ((m g).getD (true, true, true))) g).getD
              ((m g).getD (true, true, true))) t false)) f s =
          slotTaken (freeOldSlot sh (mapSet m g ((m g).getD (true, true, true)))) f s := by
        intro f s hne
        rw [slotTaken_mapSet]
        by_cases hf : f = g
        · subst hf
          rw [if_pos rfl, hm2g, Option.getD_some]
          have hst : t ≠ s := fun h => hne ⟨rfl, h.symm⟩
          rw [slotGet_slotSet_ne sl2 t s false hst]
          unfold slotTaken
          rw [hm2g]
        · rw [if_neg hf]
      refine ⟨ht3, rfl, rfl, rfl, htakenold, ?_, ?_⟩
      · rw [slotTaken_mapSet, if_pos rfl, hm2g, Option.getD_some,
          slotGet_slotSet_self sl2 t false ht3]
        rfl
      · intro f s hs hne
        constructor
        · intro hshf hshs
          rw [hstar f s hne]
          rw [← hshs]
          exact hfreeSpec.2 f hshf
        · intro hnsh
          rw [hstar f s hne, hfreeSpec.1 f s hnsh]
          exact hensure f s hs

end Flock

namespace Flock

/-! ### The occupancy invariant (claims C1 and C10) -/

/-- A sheep is placed: it has a face, a real slot (0-2), and that slot is
marked occupied in the record. -/
def placedB (m : Nat → Option Slots) (x : SheepM) : Bool :=
  match x.faceIndex with
  | some f => decide (x.slot < 3) && slotTaken m f x.slot
  | none => false

/-- Two sheep do not occupy the same slot of the same face. -/
def slotRel (a b : SheepM) : Prop := a.faceIndex ≠ b.faceIndex ∨ a.slot ≠ b.slot

/-- The occupancy invariant for a live list and a slot record. -/
def OccInv (l : List SheepM) (m : Nat → Option Slots) : Prop :=
  (∀ x ∈ l, x.isDead = false ∧ placedB m x = true) ∧ l.Pairwise slotRel

instance : DecidablePred (fun a : List SheepM × (Nat → Option Slots) => True) :=
  fun _ => inferInstance

lemma slotRel_symm : Symmetric slotRel := by
  intro a b h
  rcases h with h | h
  · exact Or.inl (Ne.symm h)
  · exact Or.inr (Ne.symm h)

lemma placedB_iff (m : Nat → Option Slots) (x : SheepM) :
    placedB m x = true ↔
      ∃ f, x.faceIndex = some f ∧ x.slot < 3 ∧ slotTaken m f x.slot = true := by
  unfold placedB
  rcases hx : x.faceIndex with _ | f <;> simp [hx]

lemma placedB_congr (m : Nat → Option Slots) (x y : SheepM)
    (hf : x.faceIndex = y.faceIndex) (hs : x.slot = y.slot) :
    placedB m x = placedB m y := by
  unfold placedB
  rw [hf, hs]

/-- Occupancy-equivalent records support the same placements. -/
lemma occInv_of_slotTaken_eq (l : List SheepM) (m m' : Nat → Option Slots)
    (h : ∀ f s, s < 3 → slotTaken m' f s = slotTaken m f s) (hinv : OccInv l m) :
    OccInv l m' := by
  refine ⟨fun x hx => ⟨(hinv.1 x hx).1, ?_⟩, hinv.2⟩
  have hp := (placedB_iff m x).mp (hinv.1 x hx).2
  obtain ⟨f, hf, h3, ht⟩ := hp
  exact (placedB_iff m' x).mpr ⟨f, hf, h3, by rw [h f x.slot h3]; exact ht⟩

/-- Placing a sheep (fresh, or moved out of the list context `A ++ sh :: B`)
preserves the occupancy invariant of the other sheep, and the placed sheep
joins them correctly. -/
lemma occInv_place (A B : List SheepM) (sh : SheepM) (m : Nat → Option Slots)
    (order : List Nat) (g : Nat) (s' : SheepM) (m' : Nat → Option Slots)
    (hA : ∀ x ∈ A ++ B, x.isDead = false ∧ placedB m x = true)
    (hpw : (A ++ B).Pairwise slotRel)
    (hshdead : sh.isDead = false) (hsh3 : sh.slot < 3)
    (hshrel : ∀ y ∈ A ++ B, slotRel sh y)
    (h : setSheepOnFace order sh g m = (some s', m')) :
    OccInv (A ++ s' :: B) m' := by
  obtain ⟨ht3, hface, hdead, _, htakenold, htaken, hother⟩ :=
    (setSheepOnFace_spec order sh g m hsh3).2 s' m' h
  have hmem_ne : ∀ y ∈ A ++ B, ¬(y.faceIndex = some g ∧ y.slot = s'.slot) := by
    intro y hy hcontra
    obtain ⟨f, hf, h3, htk⟩ := (placedB_iff m y).mp (hA y hy).2
    rw [hcontra.1] at hf
    have hfg : f = g := by injection hf.symm
    subst hfg
    rw [hcontra.2] at htk
    rw [htakenold] at htk
    exact Bool.false_ne_true htk
  have hplaced_other : ∀ y ∈ A ++ B, y.isDead = false ∧ placedB m' y = true := by
    intro y hy
    refine ⟨(hA y hy).1, ?_⟩
    obtain ⟨f, hf, h3, htk⟩ := (placedB_iff m y).mp (hA y hy).2
    refine (placedB_iff m' y).mpr ⟨f, hf, h3, ?_⟩
    have hne : ¬(f = g ∧ y.slot = s'.slot) := by
      rintro ⟨rfl, hslot⟩
      exact hmem_ne y hy ⟨hf, hslot⟩
    have hnsh : ¬(sh.faceIndex = some f ∧ sh.slot = y.slot) := by
      rintro ⟨hq1, hq2⟩
      rcases hshrel y hy with hd | hd
      · exact hd (hq1.trans hf.symm)
      · exact hd hq2
    rw [(hother f y.slot h3 hne).2 hnsh]
    exact htk
  have hrel_s' : ∀ y ∈ A ++ B, slotRel s' y := by
    intro y hy
    by_cases hfy : y.faceIndex = some g
    · refine Or.inr fun hs => hmem_ne y hy ⟨hfy, hs.symm⟩
    · refine Or.inl ?_
      rw [hface]
      exact fun hh => hfy hh.symm
  have hs'placed : s'.isDead = false ∧ placedB m' s' = true := by
    refine ⟨hdead.trans hshdead, (placedB_iff m' s').mpr ⟨g, hface, ht3, htaken⟩⟩
  constructor
  · intro x hx
    rcases List.mem_append.mp hx with hx | hx
    · exact hplaced_other x (List.mem_append_left B hx)
    · rcases List.mem_cons.mp hx with rfl | hx
      · exact hs'placed
      · exact hplaced_other x (List.mem_append_right A hx)
  · rw [List.pairwise_append] at hpw ⊢
    obtain ⟨hpA, hpB, hAB⟩ := hpw
    refine ⟨hpA, ?_, ?_⟩
    · rw [List.pairwise_cons]
      exact ⟨fun b hb => hrel_s' b (List.mem_append_right A hb), hpB⟩
    · intro a ha b hb
      rcases List.mem_cons.mp hb with rfl | hb
      · exact slotRel_symm (hrel_s' a (List.mem_append_left B ha))
      · exact hAB a ha b hb

end Flock

namespace Flock

/-- Moving a sheep out of the list context `A ++ sh :: B` preserves the
invariant. -/
lemma occInv_move_middle (A B : List SheepM) (sh : SheepM) (m : Nat → Option Slots)
    (order : List Nat) (g : Nat) (s' : SheepM) (m' : Nat → Option Slots)
    (hinv : OccInv (A ++ sh :: B) m)
    (h : setSheepOnFace order sh g m = (some s', m')) :
    OccInv (A ++ s' :: B) m' := by
  obtain ⟨hall, hpw⟩ := hinv
  have hshmem : sh ∈ A ++ sh :: B := List.mem_append_right A (List.mem_cons_self sh B)
  have hsh := hall sh hshmem
  obtain ⟨f0, _, hsh3, _⟩ := (placedB_iff m sh).mp hsh.2
  rw [List.pairwise_append] at hpw
  obtain ⟨hpA, hpCons, hAB⟩ := hpw
  rw [List.pairwise_cons] at hpCons
  refine occInv_place A B sh m order g s' m' ?_ ?_ hsh.1 hsh3 ?_ h
  · intro x hx
    rcases List.mem_append.mp hx with hx | hx
    · exact hall x (List.mem_append_left _ hx)
    · exact hall x (List.mem_append_right _ (List.mem_cons_of_mem sh hx))
  · rw [List.pairwise_append]
    exact ⟨hpA, hpCons.2, fun a ha b hb => hAB a ha b (List.mem_cons_of_mem sh hb)⟩
  · intro y hy
    rcases List.mem_append.mp hy with hy | hy
    · exact slotRel_symm (hAB y hy sh (List.mem_cons_self sh B))
    · exact hpCons.1 y hy

/-- Appending a freshly placed sheep preserves the invariant. -/
lemma occInv_spawn_append (l : List SheepM) (m : Nat → Option Slots)
    (order : List Nat) (g : Nat) (s' : SheepM) (m' : Nat → Option Slots)
    (hinv : OccInv l m)
    (h : setSheepOnFace order newSheep g m = (some s', m')) :
    OccInv (l ++ [s']) m' := by
  have hplace := occInv_place l [] newSheep m order g s' m'
    (by simpa using hinv.1) (by simpa using hinv.2) rfl (by decide) ?_ h
  · exact hplace
  · intro y hy
    simp only [List.append_nil] at hy
    obtain ⟨f, hf, _, _⟩ := (placedB_iff m y).mp (hinv.1 y hy).2
    refine Or.inl ?_
    rw [hf]
    simp [newSheep]

/-- The error path of `setSheepOnFace` preserves the invariant. -/
lemma occInv_set_none (l : List SheepM) (m : Nat → Option Slots) (order : List Nat)
    (sh : SheepM) (g : Nat) (m1 : Nat → Option Slots) (hsh3 : sh.slot < 3)
    (h : setSheepOnFace order sh g m = (none, m1)) (hinv : OccInv l m) : OccInv l m1 :=
  occInv_of_slotTaken_eq l m m1 ((setSheepOnFace_spec order sh g m hsh3).1 m1 h) hinv

/-- One iteration of the slow-tick sheep loop preserves the invariant, with
the processed sheep kept in place in the list. -/
lemma occInv_processSheep (P : Params) (flock : Option Nat) (depth : Nat → ℚ)
    (os : SheepOracle) (A B : List SheepM) (sh : SheepM) (m : Nat → Option Slots)
    (grass : Nat → ℚ) (food : ℚ)
    (hinv : OccInv (A ++ sh :: B) m) :
    OccInv (A ++ (processSheep P flock depth os sh m grass food).1 :: B)
      (processSheep P flock depth os sh m grass food).2.1 := by
  have hsh3 : sh.slot < 3 := by
    obtain ⟨f0, _, h3, _⟩ := (placedB_iff m sh).mp
      (hinv.1 sh (List.mem_append_right A (List.mem_cons_self sh B))).2
    exact h3
  unfold processSheep
  split
  · exact hinv
  · split
    · exact hinv
    · dsimp only
      split
      · split
        · split
          · next s' m' heq => exact occInv_move_middle A B sh m _ _ s' m' hinv heq
          · next m' heq => exact occInv_set_none _ m _ sh _ m' hsh3 heq hinv
        · exact hinv
      · split
        · exact hinv
        · split
          · split
            · next s' m' heq => exact occInv_move_middle A B sh m _ _ s' m' hinv heq
            · next m' heq => exact occInv_set_none _ m _ sh _ m' hsh3 heq hinv
          · exact hinv

end Flock

namespace Flock

/-- The whole slow-tick sheep loop preserves the invariant, keeping the
already-processed prefix in front. -/
lemma occInv_sheepLoop (P : Params) (flock : Option Nat) (depth : Nat → ℚ)
    (oper : Nat → SheepOracle) :
    ∀ (todo done : List SheepM) (i : Nat) (m : Nat → Option Slots) (gr : Nat → ℚ) (fd : ℚ),
      OccInv (done ++ todo) m →
      OccInv (done ++ (sheepLoop P flock depth oper i todo m gr fd).1)
        (sheepLoop P flock depth oper i todo m gr fd).2.1 := by
  intro todo
  induction todo with
  | nil =>
    intro done i m gr fd hinv
    exact hinv
  | cons a t ih =>
    intro done i m gr fd hinv
    rw [sheepLoop]
    have h1 := occInv_processSheep P flock depth (oper i) done t a m gr fd hinv
    have h2 := ih (done ++ [(processSheep P flock depth (oper i) a m gr fd).1]) (i + 1)
      (processSheep P flock depth (oper i) a m gr fd).2.1
      (processSheep P flock depth (oper i) a m gr fd).2.2.1
      (processSheep P flock depth (oper i) a m gr fd).2.2.2
      (by rwa [List.append_assoc, List.singleton_append])
    rwa [List.append_assoc, List.singleton_append] at h2

/-- The spawn phase preserves the invariant. -/
lemma occInv_spawnPhase (P : Params) (st : AppState) (k : Nat)
    (hinv : OccInv st.sheep st.slotFree) :
    OccInv (spawnPhase P st k).sheep (spawnPhase P st k).slotFree := by
  unfold spawnPhase
  split
  · split
    · next shm heq =>
      unfold trySpawnSheep at heq
      split at heq
      · exact absurd heq (by simp)
      · split at heq
        · exact absurd heq (by simp)
        · split at heq
          · next sh m' heq2 =>
            simp only [Option.some.injEq] at heq
            subst heq
            exact occInv_spawn_append st.sheep st.slotFree _ _ sh m' hinv heq2
          · exact absurd heq (by simp)
    · exact hinv
  · exact hinv

/-- Movement animation changes neither face, slot nor dead flag. -/
lemma sheepAnimTick_fields (s : SheepM) :
    (sheepAnimTick s).faceIndex = s.faceIndex ∧ (sheepAnimTick s).slot = s.slot := by
  unfold sheepAnimTick
  split
  · exact ⟨rfl, rfl⟩
  · split <;> exact ⟨rfl, rfl⟩

/-- The death sweep preserves the invariant (the slot record is untouched;
the live list shrinks to a sublist with faces and slots unchanged). -/
lemma occInv_deathPhase (P : Params) (st : AppState)
    (hinv : OccInv st.sheep st.slotFree) :
    OccInv (deathPhase P st).sheep (deathPhase P st).slotFree := by
  have hmap : (deathPhase P st).slotFree = st.slotFree := rfl
  rw [hmap, deathPhase_sheep]
  constructor
  · intro x hx
    obtain ⟨y, hy, rfl⟩ := List.mem_map.mp hx
    have hymem := List.mem_of_mem_filter hy
    have hyinv := hinv.1 y hymem
    refine ⟨by rw [sheepAnimTick_isDead]; exact hyinv.1, ?_⟩
    rw [placedB_congr st.slotFree (sheepAnimTick y) y (sheepAnimTick_fields y).1
      (sheepAnimTick_fields y).2]
    exact hyinv.2
  · have hpf : (st.sheep.filter
        (fun s => !s.isDead && !submergedSheep P st.depth s)).Pairwise slotRel :=
      List.Pairwise.filter _ hinv.2
    rw [List.pairwise_map]
    refine hpf.imp ?_
    intro a b hab
    rcases hab with hd | hd
    · exact Or.inl (by rw [(sheepAnimTick_fields a).1, (sheepAnimTick_fields b).1]; exact hd)
    · exact Or.inr (by rw [(sheepAnimTick_fields a).2, (sheepAnimTick_fields b).2]; exact hd)

/-- The water ratchet touches neither the sheep list nor the slot record
(nor depth, grass, food, frame or flocking point). -/
lemma waterPhase_frame (P : Params) (st : AppState) :
    (waterPhase P st).sheep = st.sheep ∧ (waterPhase P st).slotFree = st.slotFree
    ∧ (waterPhase P st).depth = st.depth ∧ (waterPhase P st).grass = st.grass
    ∧ (waterPhase P st).sheepStoredFood = st.sheepStoredFood
    ∧ (waterPhase P st).frame = st.frame
    ∧ (waterPhase P st).flockingPoint = st.flockingPoint
    ∧ (waterPhase P st).templeLevel = st.templeLevel := by
  unfold waterPhase
  rcases hfp : st.flockingPoint with _ | x
  · simp [hfp]
  · simp only [hfp]
    split_ifs <;> simp [hfp]

/-- A slow tick preserves the invariant. -/
lemma occInv_slowTick (P : Params) (st : AppState) (o : SlowOracle)
    (hinv : OccInv st.sheep st.slotFree) :
    OccInv (slowTick P st o).sheep (slowTick P st o).slotFree := by
  unfold slowTick
  have h1 := occInv_sheepLoop P st.flockingPoint (flood P.r P.hm st.waterLevel st.depth).1
    o.perSheep st.sheep [] 0 st.slotFree st.grass st.sheepStoredFood (by simpa using hinv)
  simp only [List.nil_append] at h1
  have h2 := occInv_spawnPhase P
    { st with
      depth := (flood P.r P.hm st.waterLevel st.depth).1,
      sheep := (sheepLoop P st.flockingPoint (flood P.r P.hm st.waterLevel st.depth).1
        o.perSheep 0 st.sheep st.slotFree st.grass st.sheepStoredFood).1,
      slotFree := (sheepLoop P st.flockingPoint (flood P.r P.hm st.waterLevel st.depth).1
        o.perSheep 0 st.sheep st.slotFree st.grass st.sheepStoredFood).2.1,
      grass := (sheepLoop P st.flockingPoint (flood P.r P.hm st.waterLevel st.depth).1
        o.perSheep 0 st.sheep st.slotFree st.grass st.sheepStoredFood).2.2.1,
      sheepStoredFood := (sheepLoop P st.flockingPoint (flood P.r P.hm st.waterLevel st.depth).1
        o.perSheep 0 st.sheep st.slotFree st.grass st.sheepStoredFood).2.2.2 }
    o.spawnSlotPerm h1
  have ht := templePhase_frame (spawnPhase P
    { st with
      depth := (flood P.r P.hm st.waterLevel st.depth).1,
      sheep := (sheepLoop P st.flockingPoint (flood P.r P.hm st.waterLevel st.depth).1
        o.perSheep 0 st.sheep st.slotFree st.grass st.sheepStoredFood).1,
      slotFree := (sheepLoop P st.flockingPoint (flood P.r P.hm st.waterLevel st.depth).1
        o.perSheep 0 st.sheep st.slotFree st.grass st.sheepStoredFood).2.1,
      grass := (sheepLoop P st.flockingPoint (flood P.r P.hm st.waterLevel st.depth).1
        o.perSheep 0 st.sheep st.slotFree st.grass st.sheepStoredFood).2.2.1,
      sheepStoredFood := (sheepLoop P st.flockingPoint (flood P.r P.hm st.waterLevel st.depth).1
        o.perSheep 0 st.sheep st.slotFree st.grass st.sheepStoredFood).2.2.2 }
    o.spawnSlotPerm)
  rw [ht.1, ht.2.1]
  exact h2

/-- A full fast tick preserves the invariant. -/
lemma occInv_tick (P : Params) (st : AppState) (o : TickOracle)
    (hinv : OccInv st.sheep st.slotFree) :
    OccInv (tick P st o).sheep (tick P st o).slotFree := by
  unfold tick
  dsimp only
  have hd := occInv_deathPhase P st hinv
  have hw : OccInv (waterPhase P (deathPhase P st)).sheep
      (waterPhase P (deathPhase P st)).slotFree := by
    rw [(waterPhase_frame P (deathPhase P st)).1, (waterPhase_frame P (deathPhase P st)).2.1]
    exact hd
  split
  · exact occInv_slowTick P _ o.slow hw
  · exact hw

/-- A click preserves the invariant. -/
lemma occInv_raycastStep (P : Params) (st : AppState) (f : Nat) (o : ClickOracle)
    (hinv : OccInv st.sheep st.slotFree) :
    OccInv (raycastStep P st f o).sheep (raycastStep P st f o).slotFree := by
  unfold raycastStep
  split
  · exact hinv
  · split
    · unfold initialFlock
      refine foldl_invariant _ _ (fun s : AppState => OccInv s.sheep s.slotFree) ?_ _ hinv
      intro a i ha
      split
      · exact ha
      · split
        · next sh m' heq =>
          exact occInv_spawn_append a.sheep a.slotFree _ _ sh m' ha heq
        · next m' heq =>
          exact occInv_set_none a.sheep a.slotFree _ newSheep _ m' (by decide) heq ha
    · exact hinv

/-- Every reachable state satisfies the occupancy invariant. -/
lemma reachable_occInv (P : Params) : ∀ st, Reachable P st →
    OccInv st.sheep st.slotFree := by
  intro st h
  induction h with
  | init => exact ⟨fun x hx => absurd hx (List.not_mem_nil x), List.Pairwise.nil⟩
  | @step s1 s2 hr hstep ih =>
    cases hstep with
    | render o =>
      have := occInv_tick P s1 o ih
      exact this
    | click f o => exact occInv_raycastStep P s1 f o ih

end Flock

namespace Flock

/-- Pairwise transport that may use membership. -/
lemma pairwise_imp_mem {α : Type _} {R S : α → α → Prop} :
    ∀ (l : List α), (∀ a ∈ l, ∀ b ∈ l, R a b → S a b) → l.Pairwise R → l.Pairwise S := by
  intro l
  induction l with
  | nil => intro _ _; exact List.Pairwise.nil
  | cons a t ih =>
    intro h hp
    rw [List.pairwise_cons] at hp ⊢
    exact ⟨fun b hb => h a (List.mem_cons_self a t) b (List.mem_cons_of_mem a hb) (hp.1 b hb),
      ih (fun x hx y hy => h x (List.mem_cons_of_mem a hx) y (List.mem_cons_of_mem a hy)) hp.2⟩

/-- Pigeonhole: under the occupancy invariant, at most 3 sheep sit on any
face (their slots are pairwise distinct members of `{0,1,2}`). -/
lemma count_face_le_three (l : List SheepM) (m : Nat → Option Slots)
    (hinv : OccInv l m) (f : Nat) :
    (l.filter (fun x => x.faceIndex == some f)).length ≤ 3 := by
  have hsub : ∀ x ∈ l.filter (fun x => x.faceIndex == some f), x.slot < 3 := by
    intro x hx
    obtain ⟨f', _, h3, _⟩ :=
      (placedB_iff m x).mp (hinv.1 x (List.mem_of_mem_filter hx)).2
    exact h3
  have hpw : (l.filter (fun x => x.faceIndex == some f)).Pairwise
      (fun a b => a.slot ≠ b.slot) := by
    refine pairwise_imp_mem _ ?_ (hinv.2.filter _)
    intro a ha b hb hab
    have hfa := (List.mem_filter.mp ha).2
    have hfb := (List.mem_filter.mp hb).2
    simp only [beq_iff_eq] at hfa hfb
    rcases hab with hd | hd
    · exact absurd (hfa.trans hfb.symm) hd
    · exact hd
  have hnd : ((l.filter (fun x => x.faceIndex == some f)).map (fun x => x.slot)).Nodup :=
    List.Pairwise.map _ (fun a b h => h) hpw
  have hsubF : ((l.filter (fun x => x.faceIndex == some f)).map
      (fun x => x.slot)).toFinset ⊆ Finset.range 3 := by
    intro a ha
    rw [List.mem_toFinset] at ha
    obtain ⟨x, hx, rfl⟩ := List.mem_map.mp ha
    rw [Finset.mem_range]
    exact hsub x hx
  have hcard := Finset.card_le_card hsubF
  rw [Finset.card_range, List.toFinset_card_of_nodup hnd, List.length_map] at hcard
  exact hcard

/-- C1 (confirmed): at every reachable simulation state no face hosts more
than 3 live sheep, every live sheep has a face and a slot in 0-2 that is
marked occupied in `faceSheepSlotFree`, and no two live sheep on the same
face hold the same slot. -/
theorem occupancy_invariant (P : Params) (st : AppState) (h : Reachable P st) :
    (∀ f : Nat, (st.sheep.filter (fun x => x.faceIndex == some f)).length ≤ 3)
    ∧ (∀ x ∈ st.sheep, ∃ f, x.faceIndex = some f ∧ x.slot < 3
        ∧ slotTaken st.slotFree f x.slot = true)
    ∧ st.sheep.Pairwise (fun a b => a.faceIndex ≠ b.faceIndex ∨ a.slot ≠ b.slot) := by
  have hinv := reachable_occInv P st h
  exact ⟨fun f => count_face_le_three st.sheep st.slotFree hinv f,
    fun x hx => (placedB_iff st.slotFree x).mp (hinv.1 x hx).2, hinv.2⟩

/-- Witness for C1 at the (reachable) initial state. -/
theorem occupancy_invariant_witness :
    ((initialState witnessParams).sheep.filter
      (fun x => x.faceIndex == some 0)).length ≤ 3
    ∧ (initialState witnessParams).sheep.Pairwise
        (fun a b => a.faceIndex ≠ b.faceIndex ∨ a.slot ≠ b.slot) := by
  have h := occupancy_invariant witnessParams (initialState witnessParams) Reachable.init
  exact ⟨h.1 0, h.2.2⟩

end Flock

namespace Flock

/-! ### Claim C10: a dead sheep's slot stays occupied -/

/-- Placing some other sheep keeps an orphaned slot taken and unheld. -/
lemma orphan_place (sh : SheepM) (m : Nat → Option Slots)
    (order : List Nat) (g : Nat) (s' : SheepM) (m' : Nat → Option Slots) (f s : Nat)
    (hs3 : s < 3) (hsh3 : sh.slot < 3)
    (htaken : slotTaken m f s = true)
    (hshno : ¬(sh.faceIndex = some f ∧ sh.slot = s))
    (h : setSheepOnFace order sh g m = (some s', m')) :
    slotTaken m' f s = true ∧ ¬(s'.faceIndex = some f ∧ s'.slot = s) := by
  obtain ⟨ht3, hface, _, _, htakenold, htaken', hother⟩ :=
    (setSheepOnFace_spec order sh g m hsh3).2 s' m' h
  have hne : ¬(f = g ∧ s = s'.slot) := by
    rintro ⟨rfl, rfl⟩
    rw [htakenold] at htaken
    exact Bool.false_ne_true htaken
  refine ⟨by rw [(hother f s hs3 hne).2 hshno]; exact htaken, ?_⟩
  rintro ⟨hq1, hq2⟩
  rw [hface] at hq1
  exact hne ⟨(Option.some.inj hq1).symm, hq2.symm⟩

/-- One pass of the sheep loop keeps an orphaned slot taken and unheld. -/
lemma orphan_processSheep (P : Params) (flock : Option Nat) (depth : Nat → ℚ)
    (os : SheepOracle) (A B : List SheepM) (sh : SheepM) (m : Nat → Option Slots)
    (grass : Nat → ℚ) (food : ℚ) (f s : Nat)
    (hocc : OccInv (A ++ sh :: B) m) (hs3 : s < 3)
    (htaken : slotTaken m f s = true)
    (hno : ∀ y ∈ A ++ sh :: B, ¬(y.faceIndex = some f ∧ y.slot = s)) :
    slotTaken (processSheep P flock depth os sh m grass food).2.1 f s = true
    ∧ ∀ y ∈ A ++ (processSheep P flock depth os sh m grass food).1 :: B,
        ¬(y.faceIndex = some f ∧ y.slot = s) := by
  have hsh3 : sh.slot < 3 := by
    obtain ⟨f0, _, h3, _⟩ := (placedB_iff m sh).mp
      (hocc.1 sh (List.mem_append_right A (List.mem_cons_self sh B))).2
    exact h3
  have hshno := hno sh (List.mem_append_right A (List.mem_cons_self sh B))
  have hrebuild : ∀ (s' : SheepM), ¬(s'.faceIndex = some f ∧ s'.slot = s) →
      ∀ y ∈ A ++ s' :: B, ¬(y.faceIndex = some f ∧ y.slot = s) := by
    intro s' hs' y hy
    rcases List.mem_append.mp hy with hy | hy
    · exact hno y (List.mem_append_left _ hy)
    · rcases List.mem_cons.mp hy with rfl | hy
      · exact hs'
      · exact hno y (List.mem_append_right _ (List.mem_cons_of_mem sh hy))
  unfold processSheep
  split
  · exact ⟨htaken, hno⟩
  · split
    · exact ⟨htaken, hno⟩
    · dsimp only
      split
      · split
        · split
          · next s' m' heq =>
            obtain ⟨h1, h2⟩ := orphan_place sh m _ _ s' m' f s hs3 hsh3 htaken hshno heq
            exact ⟨h1, hrebuild s' h2⟩
          · next m' heq =>
            refine ⟨?_, hno⟩
            rw [(setSheepOnFace_spec _ sh _ m hsh3).1 m' heq f s hs3]
            exact htaken
        · exact ⟨htaken, hno⟩
      · split
        · exact ⟨htaken, hno⟩
        · split
          · split
            · next s' m' heq =>
              obtain ⟨h1, h2⟩ := orphan_place sh m _ _ s' m' f s hs3 hsh3 htaken hshno heq
              exact ⟨h1, hrebuild s' h2⟩
            · next m' heq =>
              refine ⟨?_, hno⟩
              rw [(setSheepOnFace_spec _ sh _ m hsh3).1 m' heq f s hs3]
              exact htaken
          · exact ⟨htaken, hno⟩

/-- The whole sheep loop keeps an orphaned slot taken and unheld. -/
lemma orphan_sheepLoop (P : Params) (flock : Option Nat) (depth : Nat → ℚ)
    (oper : Nat → SheepOracle) (f s : Nat) (hs3 : s < 3) :
    ∀ (todo done : List SheepM) (i : Nat) (m : Nat → Option Slots) (gr : Nat → ℚ) (fd : ℚ),
      OccInv (done ++ todo) m →
      slotTaken m f s = true →
      (∀ y ∈ done ++ todo, ¬(y.faceIndex = some f ∧ y.slot = s)) →
      slotTaken (sheepLoop P flock depth oper i todo m gr fd).2.1 f s = true
      ∧ ∀ y ∈ done ++ (sheepLoop P flock depth oper i todo m gr fd).1,
          ¬(y.faceIndex = some f ∧ y.slot = s) := by
  intro todo
  induction todo with
  | nil =>
    intro done i m gr fd _ htaken hno
    exact ⟨htaken, hno⟩
  | cons a t ih =>
    intro done i m gr fd hocc htaken hno
    rw [sheepLoop]
    have hstep := orphan_processSheep P flock depth (oper i) done t a m gr fd f s hocc hs3
      htaken hno
    have hocc' := occInv_processSheep P flock depth (oper i) done t a m gr fd hocc
    have hind := ih (done ++ [(processSheep P flock depth (oper i) a m gr fd).1]) (i + 1)
      (processSheep P flock depth (oper i) a m gr fd).2.1
      (processSheep P flock depth (oper i) a m gr fd).2.2.1
      (processSheep P flock depth (oper i) a m gr fd).2.2.2
      (by rwa [List.append_assoc, List.singleton_append])
      hstep.1
      (by rw [List.append_assoc, List.singleton_append]; exact hstep.2)
    refine ⟨hind.1, ?_⟩
    have := hind.2
    rwa [List.append_assoc, List.singleton_append] at this

/-- The spawn phase keeps an orphaned slot taken and unheld. -/
lemma orphan_spawnPhase (P : Params) (st : AppState) (k : Nat) (f s : Nat) (hs3 : s < 3)
    (htaken : slotTaken st.slotFree f s = true)
    (hno : ∀ y ∈ st.sheep, ¬(y.faceIndex = some f ∧ y.slot = s)) :
    slotTaken (spawnPhase P st k).slotFree f s = true
    ∧ ∀ y ∈ (spawnPhase P st k).sheep, ¬(y.faceIndex = some f ∧ y.slot = s) := by
  unfold spawnPhase
  split
  · split
    · next shm heq =>
      unfold trySpawnSheep at heq
      split at heq
      · exact absurd heq (by simp)
      · split at heq
        · exact absurd heq (by simp)
        · split at heq
          · next sh m' heq2 =>
            simp only [Option.some.injEq] at heq
            subst heq
            obtain ⟨h1, h2⟩ := orphan_place newSheep st.slotFree _ _ sh m' f s hs3
              (by decide) htaken (by simp [newSheep]) heq2
            refine ⟨h1, ?_⟩
            intro y hy
            rcases List.mem_append.mp hy with hy | hy
            · exact hno y hy
            · rcases List.mem_cons.mp hy with rfl | hy
              · exact h2
              · exact absurd hy (List.not_mem_nil y)
          · exact absurd heq (by simp)
    · exact ⟨htaken, hno⟩
  · exact ⟨htaken, hno⟩

/-- The death sweep keeps an orphaned slot taken and unheld (the slot record
is untouched; survivors keep their faces and slots). -/
lemma orphan_deathPhase (P : Params) (st : AppState) (f s : Nat)
    (htaken : slotTaken st.slotFree f s = true)
    (hno : ∀ y ∈ st.sheep, ¬(y.faceIndex = some f ∧ y.slot = s)) :
    slotTaken (deathPhase P st).slotFree f s = true
    ∧ ∀ y ∈ (deathPhase P st).sheep, ¬(y.faceIndex = some f ∧ y.slot = s) := by
  refine ⟨htaken, ?_⟩
  rw [deathPhase_sheep]
  intro y hy
  obtain ⟨z, hz, rfl⟩ := List.mem_map.mp hy
  rw [(sheepAnimTick_fields z).1, (sheepAnimTick_fields z).2]
  exact hno z (List.mem_of_mem_filter hz)

/-- A whole slow tick keeps an orphaned slot taken and unheld. -/
lemma orphan_slowTick (P : Params) (st : AppState) (o : SlowOracle) (f s : Nat)
    (hs3 : s < 3) (hocc : OccInv st.sheep st.slotFree)
    (htaken : slotTaken st.slotFree f s = true)
    (hno : ∀ y ∈ st.sheep, ¬(y.faceIndex = some f ∧ y.slot = s)) :
    slotTaken (slowTick P st o).slotFree f s = true
    ∧ ∀ y ∈ (slowTick P st o).sheep, ¬(y.faceIndex = some f ∧ y.slot = s) := by
  unfold slowTick
  have hloop := orphan_sheepLoop P st.flockingPoint
    (flood P.r P.hm st.waterLevel st.depth).1 o.perSheep f s hs3 st.sheep [] 0
    st.slotFree st.grass st.sheepStoredFood (by simpa using hocc) htaken
    (by simpa using hno)
  have hloopInv := occInv_sheepLoop P st.flockingPoint
    (flood P.r P.hm st.waterLevel st.depth).1 o.perSheep st.sheep [] 0
    st.slotFree st.grass st.sheepStoredFood (by simpa using hocc)
  simp only [List.nil_append] at hloop hloopInv
  have hspawn := orphan_spawnPhase P
    { st with
      depth := (flood P.r P.hm st.waterLevel st.depth).1,
      sheep := (sheepLoop P st.flockingPoint (flood P.r P.hm st.waterLevel st.depth).1
        o.perSheep 0 st.sheep st.slotFree st.grass st.sheepStoredFood).1,
      slotFree := (sheepLoop P st.flockingPoint (flood P.r P.hm st.waterLevel st.depth).1
        o.perSheep 0 st.sheep st.slotFree st.grass st.sheepStoredFood).2.1,
      grass := (sheepLoop P st.flockingPoint (flood P.r P.hm st.waterLevel st.depth).1
        o.perSheep 0 st.sheep st.slotFree st.grass st.sheepStoredFood).2.2.1,
      sheepStoredFood := (sheepLoop P st.flockingPoint (flood P.r P.hm st.waterLevel st.depth).1
        o.perSheep 0 st.sheep st.slotFree st.grass st.sheepStoredFood).2.2.2 }
    o.spawnSlotPerm f s hs3 hloop.1 hloop.2
  have ht := templePhase_frame (spawnPhase P
    { st with
      depth := (flood P.r P.hm st.waterLevel st.depth).1,
      sheep := (sheepLoop P st.flockingPoint (flood P.r P.hm st.waterLevel st.depth).1
        o.perSheep 0 st.sheep st.slotFree st.grass st.sheepStoredFood).1,
      slotFree := (sheepLoop P st.flockingPoint (flood P.r P.hm st.waterLevel st.depth).1
        o.perSheep 0 st.sheep st.slotFree st.grass st.sheepStoredFood).2.1,
      grass := (sheepLoop P st.flockingPoint (flood P.r P.hm st.waterLevel st.depth).1
        o.perSheep 0 st.sheep st.slotFree st.grass st.sheepStoredFood).2.2.1,
      sheepStoredFood := (sheepLoop P st.flockingPoint (flood P.r P.hm st.waterLevel st.depth).1
        o.perSheep 0 st.sheep st.slotFree st.grass st.sheepStoredFood).2.2.2 }
    o.spawnSlotPerm)
  rw [ht.1, ht.2.1]
  exact hspawn

end Flock

namespace Flock

/-- The initial-flock loop keeps an orphaned slot taken and unheld (it only
places fresh sheep into currently free slots). -/
lemma orphan_initialFlock (P : Params) (fp : Nat) (o : ClickOracle) (st : AppState)
    (f s : Nat) (hs3 : s < 3)
    (htaken : slotTaken st.slotFree f s = true)
    (hno : ∀ y ∈ st.sheep, ¬(y.faceIndex = some f ∧ y.slot = s)) :
    slotTaken (initialFlock P fp o st).slotFree f s = true
    ∧ ∀ y ∈ (initialFlock P fp o st).sheep, ¬(y.faceIndex = some f ∧ y.slot = s) := by
  unfold initialFlock
  refine foldl_invariant _ _
    (fun a : AppState => slotTaken a.slotFree f s = true
      ∧ ∀ y ∈ a.sheep, ¬(y.faceIndex = some f ∧ y.slot = s)) ?_ st ⟨htaken, hno⟩
  intro a i ha
  split
  · exact ha
  · split
    · next sh m' heq =>
      obtain ⟨h1, h2⟩ := orphan_place newSheep a.slotFree _ _ sh m' f s hs3 (by decide)
        ha.1 (by simp [newSheep]) heq
      refine ⟨h1, ?_⟩
      intro y hy
      rcases List.mem_append.mp hy with hy | hy
      · exact ha.2 y hy
      · rcases List.mem_cons.mp hy with rfl | hy
        · exact h2
        · exact absurd hy (List.not_mem_nil y)
    · next m' heq =>
      refine ⟨?_, ha.2⟩
      rw [(setSheepOnFace_spec _ newSheep _ a.slotFree (by decide)).1 m' heq f s hs3]
      exact ha.1

/-- A fast tick keeps an orphaned slot taken and unheld. -/
lemma orphan_tick (P : Params) (st : AppState) (o : TickOracle) (f s : Nat)
    (hs3 : s < 3) (hocc : OccInv st.sheep st.slotFree)
    (htaken : slotTaken st.slotFree f s = true)
    (hno : ∀ y ∈ st.sheep, ¬(y.faceIndex = some f ∧ y.slot = s)) :
    slotTaken (tick P st o).slotFree f s = true
    ∧ ∀ y ∈ (tick P st o).sheep, ¬(y.faceIndex = some f ∧ y.slot = s) := by
  have hd := orphan_deathPhase P st f s htaken hno
  have hdo := occInv_deathPhase P st hocc
  have hwf := waterPhase_frame P (deathPhase P st)
  have hw1 : slotTaken (waterPhase P (deathPhase P st)).slotFree f s = true := by
    rw [hwf.2.1]; exact hd.1
  have hw2 : ∀ y ∈ (waterPhase P (deathPhase P st)).sheep,
      ¬(y.faceIndex = some f ∧ y.slot = s) := by
    rw [hwf.1]; exact hd.2
  have hwo : OccInv (waterPhase P (deathPhase P st)).sheep
      (waterPhase P (deathPhase P st)).slotFree := by
    rw [hwf.1, hwf.2.1]; exact hdo
  unfold tick
  dsimp only
  split
  · exact orphan_slowTick P _ o.slow f s hs3 hwo hw1 hw2
  · exact ⟨hw1, hw2⟩

/-- A rendered frame keeps an orphaned slot taken and unheld. -/
lemma orphan_renderStep (P : Params) (st : AppState) (o : TickOracle) (f s : Nat)
    (hs3 : s < 3) (hocc : OccInv st.sheep st.slotFree)
    (htaken : slotTaken st.slotFree f s = true)
    (hno : ∀ y ∈ st.sheep, ¬(y.faceIndex = some f ∧ y.slot = s)) :
    slotTaken (renderStep P st o).slotFree f s = true
    ∧ ∀ y ∈ (renderStep P st o).sheep, ¬(y.faceIndex = some f ∧ y.slot = s) :=
  orphan_tick P st o f s hs3 hocc htaken hno

/-- A click keeps an orphaned slot taken and unheld. -/
lemma orphan_raycastStep (P : Params) (st : AppState) (g : Nat) (o : ClickOracle)
    (f s : Nat) (hs3 : s < 3)
    (htaken : slotTaken st.slotFree f s = true)
    (hno : ∀ y ∈ st.sheep, ¬(y.faceIndex = some f ∧ y.slot = s)) :
    slotTaken (raycastStep P st g o).slotFree f s = true
    ∧ ∀ y ∈ (raycastStep P st g o).sheep, ¬(y.faceIndex = some f ∧ y.slot = s) := by
  unfold raycastStep
  split
  · exact ⟨htaken, hno⟩
  · split
    · exact orphan_initialFlock P g o _ f s hs3 htaken hno
    · exact ⟨htaken, hno⟩

/-- Any run of the simulation keeps an orphaned slot taken and unheld,
threading the occupancy invariant along. -/
lemma orphan_steps (P : Params) (st st' : AppState) (f s : Nat) (hs3 : s < 3)
    (h : Steps P st st') :
    OccInv st.sheep st.slotFree →
    slotTaken st.slotFree f s = true →
    (∀ y ∈ st.sheep, ¬(y.faceIndex = some f ∧ y.slot = s)) →
    OccInv st'.sheep st'.slotFree ∧ slotTaken st'.slotFree f s = true
    ∧ ∀ y ∈ st'.sheep, ¬(y.faceIndex = some f ∧ y.slot = s) := by
  induction h with
  | refl => intro hocc h1 h2; exact ⟨hocc, h1, h2⟩
  | @tail b c hsteps hstep ih =>
    intro hocc h1 h2
    obtain ⟨hocc', h1', h2'⟩ := ih hocc h1 h2
    cases hstep with
    | render o =>
      refine ⟨occInv_tick P b o hocc', ?_⟩
      exact orphan_renderStep P b o f s hs3 hocc' h1' h2'
    | click g o =>
      refine ⟨occInv_raycastStep P b g o hocc', ?_⟩
      exact orphan_raycastStep P b g o f s hs3 h1' h2'

/-- The death of a submerged sheep orphans its slot: after the death sweep the
slot is still taken and no live sheep holds it (every sheep on that face was
swept, since submergence depends only on the face). -/
lemma orphan_creation_death (P : Params) (st : AppState) (x : SheepM) (f s : Nat)
    (hocc : OccInv st.sheep st.slotFree)
    (hx : x ∈ st.sheep) (hxf : x.faceIndex = some f) (hxs : x.slot = s)
    (hsub : submergedSheep P st.depth x = true) :
    s < 3 ∧ slotTaken (deathPhase P st).slotFree f s = true
    ∧ ∀ y ∈ (deathPhase P st).sheep, ¬(y.faceIndex = some f ∧ y.slot = s) := by
  obtain ⟨f0, hf0, h3, htk⟩ := (placedB_iff st.slotFree x).mp (hocc.1 x hx).2
  rw [hxf] at hf0
  obtain rfl : f = f0 := Option.some.inj hf0
  have hfw : faceVerticesAllWater P.r st.depth f = true := by
    unfold submergedSheep at hsub
    rw [hxf] at hsub
    exact hsub
  refine ⟨hxs ▸ h3, ?_, ?_⟩
  · show slotTaken st.slotFree f s = true
    exact hxs ▸ htk
  · rw [deathPhase_sheep]
    intro y hy hys
    obtain ⟨z, hz, rfl⟩ := List.mem_map.mp hy
    rw [(sheepAnimTick_fields z).1] at hys
    have hpred := List.of_mem_filter hz
    have hzsub : submergedSheep P st.depth z = true := by
      unfold submergedSheep
      rw [hys.1]
      exact hfw
    simp [hzsub] at hpred

/-- C10. `Sheep.die` only sets the dead flag — face, slot and in-flight
movement are untouched and the death sweep leaves `faceSheepSlotFree`
unchanged — and once a submerged sheep dies in a rendered frame, its slot is
taken but held by no live sheep after that frame, and this orphaned state
persists through every further frame and click of the run (the occupancy
invariant, which holds in all reachable states, is threaded as a
hypothesis). -/
theorem dead_sheep_slot_leak (P : Params) (st st' : AppState) (x : SheepM) (f s : Nat)
    (o : TickOracle) :
    ((sheepDie x).faceIndex = x.faceIndex ∧ (sheepDie x).slot = x.slot
      ∧ (sheepDie x).movement = x.movement ∧ (sheepDie x).isDead = true
      ∧ (deathPhase P st).slotFree = st.slotFree)
    ∧ (OccInv st.sheep st.slotFree → x ∈ st.sheep → x.faceIndex = some f →
        x.slot = s → submergedSheep P st.depth x = true →
        slotTaken (renderStep P st o).slotFree f s = true
        ∧ ∀ y ∈ (renderStep P st o).sheep, ¬(y.faceIndex = some f ∧ y.slot = s))
    ∧ (OccInv st.sheep st.slotFree → s < 3 → slotTaken st.slotFree f s = true →
        (∀ y ∈ st.sheep, ¬(y.faceIndex = some f ∧ y.slot = s)) →
        Steps P st st' →
        slotTaken st'.slotFree f s = true
        ∧ ∀ y ∈ st'.sheep, ¬(y.faceIndex = some f ∧ y.slot = s)) := by
  refine ⟨⟨rfl, rfl, rfl, rfl, rfl⟩, ?_, ?_⟩
  · intro hocc hx hxf hxs hsub
    obtain ⟨hs3, hd1, hd2⟩ := orphan_creation_death P st x f s hocc hx hxf hxs hsub
    have hdo := occInv_deathPhase P st hocc
    have hwf := waterPhase_frame P (deathPhase P st)
    have hw1 : slotTaken (waterPhase P (deathPhase P st)).slotFree f s = true := by
      rw [hwf.2.1]; exact hd1
    have hw2 : ∀ y ∈ (waterPhase P (deathPhase P st)).sheep,
        ¬(y.faceIndex = some f ∧ y.slot = s) := by
      rw [hwf.1]; exact hd2
    have hwo : OccInv (waterPhase P (deathPhase P st)).sheep
        (waterPhase P (deathPhase P st)).slotFree := by
      rw [hwf.1, hwf.2.1]; exact hdo
    show slotTaken (tick P st o).slotFree f s = true
      ∧ ∀ y ∈ (tick P st o).sheep, ¬(y.faceIndex = some f ∧ y.slot = s)
    unfold tick
    dsimp only
    split
    · exact orphan_slowTick P _ o.slow f s hs3 hwo hw1 hw2
    · exact ⟨hw1, hw2⟩
  · intro hocc hs3 h1 h2 hsteps
    exact (orphan_steps P st st' f s hs3 hsteps hocc h1 h2).2

end Flock

namespace Flock

/-- A state whose slot record marks slot 0 of face 0 taken while no sheep is
alive: the canonical orphaned-slot configuration. -/
def orphanState : AppState :=
  { sheep := [], slotFree := fun x => if x = 0 then some (false, true, true) else none,
    flockingPoint := none, waterLevel := 0, waterCounter := 0, frame := 0,
    sheepStoredFood := 0, templeLevel := 1, depth := fun _ => 0, grass := fun _ => 0 }

unseal Rat.add Rat.mul Rat.inv Rat.sub in
/-- Witness for C10: at `submergedState` the lone sheep's death orphans slot
0 of face 0 after one rendered frame, and at `orphanState` the orphaned slot
survives a (trivial) run of the simulation. -/
theorem dead_sheep_slot_leak_witness :
    (sheepDie { faceIndex := some 0, slot := 0, isDead := false, movement := none }).isDead
        = true
    ∧ (slotTaken (renderStep witnessParams submergedState {}).slotFree 0 0 = true
       ∧ ∀ y ∈ (renderStep witnessParams submergedState {}).sheep,
           ¬(y.faceIndex = some 0 ∧ y.slot = 0))
    ∧ slotTaken orphanState.slotFree 0 0 = true := by
  have hocc1 : OccInv submergedState.sheep submergedState.slotFree := by
    refine ⟨?_, ?_⟩
    · intro x hx
      rcases List.mem_cons.mp hx with rfl | hx
      · exact ⟨rfl, by decide⟩
      · exact absurd hx (List.not_mem_nil x)
    · exact List.Pairwise.cons (fun y hy => absurd hy (List.not_mem_nil y))
        List.Pairwise.nil
  have hocc2 : OccInv orphanState.sheep orphanState.slotFree :=
    ⟨fun x hx => absurd hx (List.not_mem_nil x), List.Pairwise.nil⟩
  have h1 := dead_sheep_slot_leak witnessParams submergedState submergedState
    { faceIndex := some 0, slot := 0, isDead := false, movement := none } 0 0 {}
  have h2 := dead_sheep_slot_leak witnessParams orphanState orphanState
    { faceIndex := some 0, slot := 0, isDead := false, movement := none } 0 0 {}
  refine ⟨h1.1.2.2.2.1, h1.2.1 hocc1 (List.mem_cons_self _ _) rfl rfl (by decide), ?_⟩
  exact (h2.2.2 hocc2 (by decide) (by decide)
    (fun y hy => absurd hy (List.not_mem_nil y)) Relation.ReflTransGen.refl).1

unseal Rat.add Rat.mul Rat.inv Rat.sub in
/-- Witness for C6 at `submergedState`: the lone submerged sheep is marked
dead by the same tick's sweep, the post-sweep live list matches the filter
characterisation, and the list the full tick returns contains no dead
sheep. -/
theorem death_same_tick_witness :
    ((if submergedSheep witnessParams submergedState.depth
          { faceIndex := some 0, slot := 0, isDead := false, movement := none }
       then sheepDie { faceIndex := some 0, slot := 0, isDead := false, movement := none }
       else sheepAnimTick
          { faceIndex := some 0, slot := 0, isDead := false,
            movement := none }).isDead = true)
    ∧ (deathPhase witnessParams submergedState).sheep =
        (submergedState.sheep.filter
          (fun s => !s.isDead
            && !submergedSheep witnessParams submergedState.depth s)).map sheepAnimTick
    ∧ ∀ s' ∈ (tick witnessParams submergedState {}).sheep, s'.isDead = false := by
  have h := death_same_tick witnessParams submergedState {}
  exact ⟨h.1 _ (List.mem_cons_self _ _) (by decide), h.2.1, h.2.2.2⟩

end Flock

namespace Flock

/-- Every face in the spawn-search trace came from the initial queue or the
global face list. -/
lemma bfs_trace_sub (r : Nat) (c : Nat → Bool) :
    ∀ (queue seen : List Nat), ∀ x ∈ (bfsSpawn r c queue seen).2,
      x ∈ queue ∨ x ∈ faces r := by
  intro queue seen
  induction queue, seen using bfsSpawn.induct r c with
  | case1 seen =>
    intro x hx
    rw [bfsSpawn] at hx
    exact absurd hx (List.not_mem_nil x)
  | case2 seen f rest hf ih =>
    intro x hx
    rw [bfsSpawn] at hx
    rw [dif_pos hf] at hx
    rcases ih x hx with h | h
    · exact Or.inl (List.mem_cons_of_mem f h)
    · exact Or.inr h
  | case3 seen f rest hf hc =>
    intro x hx
    rw [bfsSpawn] at hx
    rw [dif_neg hf, if_pos hc] at hx
    rcases List.mem_singleton.mp hx with rfl
    exact Or.inl (List.mem_cons_self _ _)
  | case4 seen f rest hf hc ih =>
    intro x hx
    rw [bfsSpawn] at hx
    rw [dif_neg hf, if_neg hc] at hx
    rcases List.mem_cons.mp hx with rfl | hx
    · exact Or.inl (List.mem_cons_self _ _)
    · rcases ih x hx with h | h
      · rcases List.mem_append.mp h with h | h
        · exact Or.inl (List.mem_cons_of_mem f h)
        · exact Or.inr (adjacentFaces_subset_faces r f x (List.mem_of_mem_filter h))
      · exact Or.inr h

end Flock

namespace Flock

/-- The spawn search never tests a face twice: the trace avoids the `seen`
list and has no duplicates. -/
lemma bfs_trace_nodup (r : Nat) (c : Nat → Bool) :
    ∀ (queue seen : List Nat),
      (bfsSpawn r c queue seen).2.Nodup
      ∧ ∀ x ∈ (bfsSpawn r c queue seen).2, x ∉ seen := by
  intro queue seen
  induction queue, seen using bfsSpawn.induct r c with
  | case1 seen =>
    rw [bfsSpawn]
    exact ⟨List.nodup_nil, fun x hx => absurd hx (List.not_mem_nil x)⟩
  | case2 seen f rest hf ih =>
    rw [bfsSpawn, dif_pos hf]
    exact ih
  | case3 seen f rest hf hc =>
    rw [bfsSpawn, dif_neg hf, if_pos hc]
    refine ⟨List.nodup_singleton f, ?_⟩
    intro x hx
    rcases List.mem_singleton.mp hx with rfl
    exact hf
  | case4 seen f rest hf hc ih =>
    rw [bfsSpawn, dif_neg hf, if_neg hc]
    obtain ⟨ihn, ihd⟩ := ih
    refine ⟨List.Nodup.cons ?_ ihn, ?_⟩
    · intro hmem
      exact ihd f hmem (List.mem_cons_self _ _)
    · intro x hx
      rcases List.mem_cons.mp hx with rfl | hx
      · exact hf
      · intro hseen
        exact ihd x hx (List.mem_cons_of_mem f hseen)

/-- Soundness of the spawn search: a hit satisfies the availability test and
is the first tested face to do so — every earlier face in the trace
failed. -/
lemma bfs_sound (r : Nat) (c : Nat → Bool) :
    ∀ (queue seen : List Nat) (f : Nat),
      (bfsSpawn r c queue seen).1 = some f →
      c f = true
      ∧ ∃ t, (bfsSpawn r c queue seen).2 = t ++ [f] ∧ ∀ x ∈ t, c x = false := by
  intro queue seen
  induction queue, seen using bfsSpawn.induct r c with
  | case1 seen =>
    intro f h
    rw [bfsSpawn] at h
    exact absurd h (by simp)
  | case2 seen g rest hf ih =>
    intro f h
    rw [bfsSpawn, dif_pos hf] at h ⊢
    exact ih f h
  | case3 seen g rest hf hc =>
    intro f h
    rw [bfsSpawn, dif_neg hf, if_pos hc] at h ⊢
    obtain rfl : g = f := Option.some.inj h
    exact ⟨hc, [], rfl, fun x hx => absurd hx (List.not_mem_nil x)⟩
  | case4 seen g rest hf hc ih =>
    intro f h
    rw [bfsSpawn, dif_neg hf, if_neg hc] at h ⊢
    obtain ⟨h1, t, ht, hall⟩ := ih f h
    refine ⟨h1, g :: t, by dsimp only; rw [ht]; rfl, ?_⟩
    intro x hx
    rcases List.mem_cons.mp hx with rfl | hx
    · exact Bool.eq_false_iff.mpr hc
    · exact hall x hx

/-- Any face the spawn search returns is reachable from some queue entry
along face adjacency. -/
lemma bfs_reach (r : Nat) (c : Nat → Bool) :
    ∀ (queue seen : List Nat) (f : Nat),
      (bfsSpawn r c queue seen).1 = some f →
      ∃ q ∈ queue, Relation.ReflTransGen (fun a b => b ∈ adjacentFaces r a) q f := by
  intro queue seen
  induction queue, seen using bfsSpawn.induct r c with
  | case1 seen =>
    intro f h
    rw [bfsSpawn] at h
    exact absurd h (by simp)
  | case2 seen g rest hf ih =>
    intro f h
    rw [bfsSpawn, dif_pos hf] at h
    obtain ⟨q, hq, hreach⟩ := ih f h
    exact ⟨q, List.mem_cons_of_mem g hq, hreach⟩
  | case3 seen g rest hf hc =>
    intro f h
    rw [bfsSpawn, dif_neg hf, if_pos hc] at h
    obtain rfl : g = f := Option.some.inj h
    exact ⟨g, List.mem_cons_self _ _, Relation.ReflTransGen.refl⟩
  | case4 seen g rest hf hc ih =>
    intro f h
    rw [bfsSpawn, dif_neg hf, if_neg hc] at h
    obtain ⟨q, hq, hreach⟩ := ih f h
    rcases List.mem_append.mp hq with hq | hq
    · exact ⟨q, List.mem_cons_of_mem g hq, hreach⟩
    · refine ⟨g, List.mem_cons_self _ _, Relation.ReflTransGen.head ?_ hreach⟩
      exact List.mem_of_mem_filter hq

end Flock

namespace Flock

/-- C7: reproduction in `slowTick`.  A spawn is attempted exactly when the
stored food exceeds 5 (otherwise the phase is a no-op); `trySpawnSheep`'s
breadth-first search from the flocking point tests each face at most once
and terminates (the trace is duplicate-free and no longer than the face
count plus one); a hit satisfies `canSetSheepOnFace` (free slot, not fully
submerged), is the first tested face to do so, and is adjacency-reachable
from the flocking point; if no reachable face is available the search
returns nothing; on a successful attempt exactly one sheep is appended and
exactly 5 food deducted, the new sheep sitting on the found face; a failed
attempt leaves the state untouched. -/
theorem trySpawnSheep_spec (P : Params) (st : AppState) (k : Nat) (fp f : Nat)
    (shm : SheepM × (Nat → Option Slots)) :
    (¬ 5 < st.sheepStoredFood → spawnPhase P st k = st)
    ∧ ((bfsSpawn P.r (canSetSheepOnFace P.r st.depth st.slotFree) [fp] []).2.Nodup
       ∧ (bfsSpawn P.r (canSetSheepOnFace P.r st.depth st.slotFree) [fp] []).2.length
           ≤ (faces P.r).length + 1)
    ∧ ((bfsSpawn P.r (canSetSheepOnFace P.r st.depth st.slotFree) [fp] []).1 = some f →
        canSetSheepOnFace P.r st.depth st.slotFree f = true
        ∧ (∃ t, (bfsSpawn P.r (canSetSheepOnFace P.r st.depth st.slotFree) [fp] []).2
              = t ++ [f]
            ∧ ∀ x ∈ t, canSetSheepOnFace P.r st.depth st.slotFree x = false)
        ∧ Relation.ReflTransGen (fun a b => b ∈ adjacentFaces P.r a) fp f)
    ∧ ((∀ g, Relation.ReflTransGen (fun a b => b ∈ adjacentFaces P.r a) fp g →
          canSetSheepOnFace P.r st.depth st.slotFree g = false) →
        (bfsSpawn P.r (canSetSheepOnFace P.r st.depth st.slotFree) [fp] []).1 = none)
    ∧ (5 < st.sheepStoredFood → trySpawnSheep P st k = some shm →
        (spawnPhase P st k).sheep = st.sheep ++ [shm.1]
        ∧ (spawnPhase P st k).sheepStoredFood = st.sheepStoredFood - 5
        ∧ (spawnPhase P st k).slotFree = shm.2)
    ∧ (trySpawnSheep P st k = none → spawnPhase P st k = st)
    ∧ (trySpawnSheep P st k = some shm → st.flockingPoint = some fp →
        ∃ g, (bfsSpawn P.r (canSetSheepOnFace P.r st.depth st.slotFree) [fp] []).1
            = some g
          ∧ shm.1.faceIndex = some g ∧ shm.1.isDead = false
          ∧ shm.1.movement = some 0) := by
  refine ⟨?_, ?_, ?_, ?_, ?_, ?_, ?_⟩
  · intro h5
    unfold spawnPhase
    rw [if_neg h5]
  · obtain ⟨hnd, hdisj⟩ := bfs_trace_nodup P.r
      (canSetSheepOnFace P.r st.depth st.slotFree) [fp] []
    refine ⟨hnd, ?_⟩
    have hsub : ∀ x ∈ (bfsSpawn P.r (canSetSheepOnFace P.r st.depth st.slotFree)
        [fp] []).2, x ∈ fp :: faces P.r := by
      intro x hx
      rcases bfs_trace_sub P.r (canSetSheepOnFace P.r st.depth st.slotFree)
          [fp] [] x hx with h | h
      · rcases List.mem_singleton.mp h with rfl
        exact List.mem_cons_self _ _
      · exact List.mem_cons_of_mem fp h
    calc (bfsSpawn P.r (canSetSheepOnFace P.r st.depth st.slotFree) [fp] []).2.length
        = (bfsSpawn P.r (canSetSheepOnFace P.r st.depth st.slotFree)
            [fp] []).2.toFinset.card := (List.toFinset_card_of_nodup hnd).symm
      _ ≤ (fp :: faces P.r).toFinset.card := by
          apply Finset.card_le_card
          intro x hx
          rw [List.mem_toFinset] at hx ⊢
          exact hsub x hx
      _ ≤ (fp :: faces P.r).length := List.toFinset_card_le _
      _ = (faces P.r).length + 1 := List.length_cons fp _
  · intro h
    obtain ⟨h1, ht⟩ := bfs_sound P.r (canSetSheepOnFace P.r st.depth st.slotFree)
      [fp] [] f h
    obtain ⟨q, hq, hreach⟩ := bfs_reach P.r (canSetSheepOnFace P.r st.depth st.slotFree)
      [fp] [] f h
    rcases List.mem_singleton.mp hq with rfl
    exact ⟨h1, ht, hreach⟩
  · intro hall
    rcases hres : (bfsSpawn P.r (canSetSheepOnFace P.r st.depth st.slotFree)
        [fp] []).1 with _ | g
    · rfl
    · exfalso
      obtain ⟨h1, _⟩ := bfs_sound P.r (canSetSheepOnFace P.r st.depth st.slotFree)
        [fp] [] g hres
      obtain ⟨q, hq, hreach⟩ := bfs_reach P.r
        (canSetSheepOnFace P.r st.depth st.slotFree) [fp] [] g hres
      rcases List.mem_singleton.mp hq with rfl
      rw [hall g hreach] at h1
      exact Bool.false_ne_true h1
  · intro h5 hsp
    unfold spawnPhase
    rw [if_pos h5, hsp]
    exact ⟨rfl, rfl, rfl⟩
  · intro hnone
    unfold spawnPhase
    split
    · rw [hnone]
    · rfl
  · intro hsp hfp
    unfold trySpawnSheep at hsp
    rw [hfp] at hsp
    dsimp only at hsp
    rcases hres : (bfsSpawn P.r (canSetSheepOnFace P.r st.depth st.slotFree)
        [fp] []).1 with _ | g
    · rw [hres] at hsp
      exact absurd hsp (by simp)
    · rw [hres] at hsp
      dsimp only at hsp
      rcases hset : setSheepOnFace (perm3 k) newSheep g st.slotFree with ⟨so, m'⟩
      rw [hset] at hsp
      rcases so with _ | sh
      · exact absurd hsp (by simp)
      · obtain rfl : (sh, m') = shm := Option.some.inj hsp
        obtain ⟨_, hface, hdead, hmov, _⟩ :=
          (setSheepOnFace_spec (perm3 k) newSheep g st.slotFree (by decide)).2 sh m' hset
        exact ⟨g, rfl, hface, hdead, hmov⟩

end Flock

namespace Flock

/-- A state ready to reproduce: stored food 6, a flocking point, an empty dry
map. -/
def spawnState : AppState :=
  { sheep := [], slotFree := fun _ => none, flockingPoint := some 0,
    waterLevel := 0, waterCounter := 0, frame := 0, sheepStoredFood := 6,
    templeLevel := 1, depth := fun _ => 0, grass := fun _ => 0 }

/-- The sheep produced by a spawn on face 0 with slot order `[0,1,2]`. -/
def spawnedSheep : SheepM :=
  { faceIndex := some 0, slot := 0, isDead := false, movement := some 0 }

/-- A state with enough food but no flocking point: `trySpawnSheep` returns
nothing. -/
def noFlockState : AppState :=
  { sheep := [], slotFree := fun _ => none, flockingPoint := none,
    waterLevel := 0, waterCounter := 0, frame := 0, sheepStoredFood := 6,
    templeLevel := 1, depth := fun _ => 0, grass := fun _ => 0 }

/-- Reducing `trySpawnSheep` once the search result is known. -/
lemma trySpawnSheep_eq_of_bfs (P : Params) (st : AppState) (k fp g : Nat)
    (hfp : st.flockingPoint = some fp)
    (hbfs : (bfsSpawn P.r (canSetSheepOnFace P.r st.depth st.slotFree) [fp] []).1
      = some g) :
    trySpawnSheep P st k =
      match setSheepOnFace (perm3 k) newSheep g st.slotFree with
      | (some sh, m') => some (sh, m')
      | (none, _) => none := by
  unfold trySpawnSheep
  rw [hfp]
  dsimp only
  rw [hbfs]

unseal Rat.add Rat.mul Rat.inv Rat.sub in
/-- Witness for C7: with food 0 the spawn phase is a no-op; on the dry empty
map the search from face 0 hits face 0 itself (which passes the availability
test), one sheep is appended on it and 5 food deducted; on the fully
submerged map the search returns nothing; with no flocking point the phase
is a no-op. -/
theorem trySpawnSheep_spec_witness :
    spawnPhase witnessParams orphanState 0 = orphanState
    ∧ canSetSheepOnFace witnessParams.r spawnState.depth spawnState.slotFree 0 = true
    ∧ (bfsSpawn witnessParams.r (canSetSheepOnFace witnessParams.r submergedState.depth
        submergedState.slotFree) [0] []).1 = none
    ∧ (spawnPhase witnessParams spawnState 0).sheep
        = spawnState.sheep ++ [spawnedSheep]
    ∧ (spawnPhase witnessParams spawnState 0).sheepStoredFood
        = spawnState.sheepStoredFood - 5
    ∧ spawnPhase witnessParams noFlockState 0 = noFlockState := by
  have hbfs : (bfsSpawn witnessParams.r (canSetSheepOnFace witnessParams.r spawnState.depth
      spawnState.slotFree) [0] []).1 = some 0 := by
    rw [bfsSpawn, dif_neg (List.not_mem_nil 0), if_pos (by decide)]
  have hallsub : ∀ g, canSetSheepOnFace witnessParams.r submergedState.depth
      submergedState.slotFree g = false := by
    intro g
    unfold canSetSheepOnFace
    rw [if_pos]
    unfold faceVerticesAllWater
    rw [List.all_eq_true]
    intro v _
    show ((1:ℚ) != 0) = true
    decide
  have hsp : trySpawnSheep witnessParams spawnState 0 = some
      (spawnedSheep, (setSheepOnFace (perm3 0) newSheep 0 spawnState.slotFree).2) := by
    rw [trySpawnSheep_eq_of_bfs witnessParams spawnState 0 0 0 rfl hbfs]
    rfl
  have hA := trySpawnSheep_spec witnessParams orphanState 0 0 0 (newSheep, fun _ => none)
  have hB := trySpawnSheep_spec witnessParams spawnState 0 0 0
    (spawnedSheep, (setSheepOnFace (perm3 0) newSheep 0 spawnState.slotFree).2)
  have hC := trySpawnSheep_spec witnessParams submergedState 0 0 0 (newSheep, fun _ => none)
  have hD := trySpawnSheep_spec witnessParams noFlockState 0 0 0 (newSheep, fun _ => none)
  refine ⟨hA.1 (by decide), (hB.2.2.1 hbfs).1,
    hC.2.2.2.1 (fun g _ => hallsub g), ?_, ?_, hD.2.2.2.2.2.1 rfl⟩
  · exact (hB.2.2.2.2.1 (by decide) hsp).1
  · exact (hB.2.2.2.2.1 (by decide) hsp).2.1

end Flock
